import Mathlib

/-!
Verification of the job-control and environment-stack core of a command shell
(src/job.cpp, src/proc.cpp, src/env.cpp), via a shallow embedding in Lean.
Machine integers are modelled as Nat/Int; wide strings as String; the
singly-linked process and scope chains as lists; OS calls (kill, umask, waitpid)
as emitted actions or oracle parameters.
-/

namespace FishCore

/-! ## Signals and decoded wait statuses -/

def SIGHUP : Nat := 1
def SIGINT : Nat := 2
def SIGQUIT : Nat := 3
def SIGPIPE : Nat := 13

/-- A decoded `waitpid` status, modelling the POSIX classification macros:
exactly one of WIFEXITED / WIFSIGNALED / WIFSTOPPED holds for a reported status. -/
inductive wait_status_t where
  | exited (code : Nat)
  | signaled (sig : Nat)
  | stoppedBy (sig : Nat)
deriving DecidableEq, Repr

def WIFSTOPPED : wait_status_t → Bool
  | .stoppedBy _ => true
  | _ => false

def WIFEXITED : wait_status_t → Bool
  | .exited _ => true
  | _ => false

def WIFSIGNALED : wait_status_t → Bool
  | .signaled _ => true
  | _ => false

def WTERMSIG : wait_status_t → Nat
  | .signaled s => s
  | .stoppedBy s => s
  | .exited _ => 0

def WEXITSTATUS : wait_status_t → Nat
  | .exited c => c
  | _ => 0

/-! ## Process and job records (src/proc.h) -/

/-- One pipeline stage (process_t, src/proc.h): pid, completion flags and the
raw wait status. -/
structure process_t where
  pid : Int
  completed : Bool
  stopped : Bool
  status : wait_status_t
deriving DecidableEq, Repr

/-- Job flag constants (src/proc.h). -/
def JOB_NOTIFIED : Nat := 1
def JOB_FOREGROUND : Nat := 2
def JOB_CONSTRUCTED : Nat := 4
def JOB_SKIP_NOTIFICATION : Nat := 8
def JOB_NEGATE : Nat := 16
def JOB_CONTROL : Nat := 32
def JOB_TERMINAL : Nat := 64

/-- One pipeline (job_t, src/proc.h): process-group id, job id, flag bitset and
the owned process chain. -/
structure job_t where
  pgid : Int
  job_id : Nat
  flags : Nat
  first_process : List process_t
deriving DecidableEq, Repr

/-- job_get_flag (src/job.cpp). -/
def job_get_flag (j : job_t) (flag : Nat) : Bool :=
  j.flags &&& flag ≠ 0

/-- job_is_stopped (src/job.cpp): all processes have stopped or completed. -/
def job_is_stopped (j : job_t) : Bool :=
  j.first_process.all (fun p => p.completed || p.stopped)

/-- job_is_completed (src/job.cpp): every process has completed. -/
def job_is_completed (j : job_t) : Bool :=
  j.first_process.all (fun p => p.completed)

/-- A signal-delivery action emitted by the job-control code, standing for the
kill/killpg OS calls (and the self-directed re-raise in handle_child_status). -/
inductive sig_action_t where
  | kill (pid : Int) (sig : Nat)
  | killpg (pgid : Int) (sig : Nat)
  | kill_self (sig : Nat)
  | skip_all_blocks
deriving DecidableEq, Repr

/-! ## Job-ID allocator (src/job.cpp)

`consumed_job_ids` is a bitmap: slot i is true when job id i+1 is in use. -/

/-- The index of the first `false` slot, mirroring the std::find call in
acquire_job_id. -/
def find_first_free : List Bool → Option Nat
  | [] => none
  | b :: rest => if b then (find_first_free rest).map (· + 1) else some 0

/-- acquire_job_id (src/job.cpp): take the first free slot, or grow the bitmap
by one slot. Returns the new bitmap and the acquired id (slot index + 1). -/
def acquire_job_id (consumed_job_ids : List Bool) : List Bool × Nat :=
  match find_first_free consumed_job_ids with
  | some i => (consumed_job_ids.set i true, i + 1)
  | none => (consumed_job_ids ++ [true], consumed_job_ids.length + 1)

/-- The trailing-slot trim in release_job_id: the source scans from the back for
the last consumed slot and resizes to just past it (resizing to 0 when none
remains, via the size_t wraparound of count+1). -/
def trim_trailing_free : List Bool → List Bool
  | [] => []
  | b :: rest =>
    let r := trim_trailing_free rest
    if b = false ∧ r = [] then [] else b :: r

/-- release_job_id (src/job.cpp): clear the slot for jid, then trim trailing
free slots. The source asserts jid > 0, slot < size and slot currently set. -/
def release_job_id (consumed_job_ids : List Bool) (jid : Nat) : List Bool :=
  trim_trailing_free (consumed_job_ids.set (jid - 1) false)

/-- A job id is in use when its slot is inside the bitmap and set; slots past
the end count as free. -/
def job_id_in_use (l : List Bool) (jid : Nat) : Prop :=
  1 ≤ jid ∧ l.getD (jid - 1) false = true

instance (l : List Bool) (jid : Nat) : Decidable (job_id_in_use l jid) := by
  unfold job_id_in_use; infer_instance

/-! ### Allocator lemmas -/

theorem find_first_free_spec_some (l : List Bool) (i : Nat)
    (h : find_first_free l = some i) :
    i < l.length ∧ l.getD i false = false ∧ ∀ j, j < i → l.getD j false = true := by
  induction l generalizing i with
  | nil => simp [find_first_free] at h
  | cons b rest ih =>
    by_cases hb : b
    · simp [find_first_free, hb] at h
      obtain ⟨i0, hi0, rfl⟩ := h
      obtain ⟨h1, h2, h3⟩ := ih i0 hi0
      refine ⟨by simpa using h1, by simpa using h2, ?_⟩
      intro j hj
      cases j with
      | zero => simpa using hb
      | succ j0 => simpa using h3 j0 (by omega)
    · simp [find_first_free, hb] at h
      subst h
      refine ⟨by simp, by simpa using hb, ?_⟩
      intro j hj
      omega

theorem find_first_free_spec_none (l : List Bool)
    (h : find_first_free l = none) :
    ∀ j, j < l.length → l.getD j false = true := by
  induction l with
  | nil => intro j hj; simp at hj
  | cons b rest ih =>
    by_cases hb : b
    · simp [find_first_free, hb] at h
      intro j hj
      cases j with
      | zero => simpa using hb
      | succ j0 => simpa using ih h j0 (by simpa using hj)
    · simp [find_first_free, hb] at h

theorem getD_set_self (l : List Bool) (i : Nat) (x : Bool) (h : i < l.length) :
    (l.set i x).getD i false = x := by
  induction l generalizing i with
  | nil => simp at h
  | cons b rest ih =>
    cases i with
    | zero => simp
    | succ i0 => simpa using ih i0 (by simpa using h)

theorem getD_set_ne (l : List Bool) (i j : Nat) (x : Bool) (h : i ≠ j) :
    (l.set i x).getD j false = l.getD j false := by
  induction l generalizing i j with
  | nil => simp
  | cons b rest ih =>
    cases i with
    | zero =>
      cases j with
      | zero => exact absurd rfl h
      | succ j0 => simp
    | succ i0 =>
      cases j with
      | zero => simp
      | succ j0 => simpa using ih i0 j0 (by omega)

theorem trim_trailing_free_nil_getD (l : List Bool)
    (h : trim_trailing_free l = []) (j : Nat) : l.getD j false = false := by
  induction l generalizing j with
  | nil => simp
  | cons b rest ih =>
    simp only [trim_trailing_free] at h
    split at h
    · next hc =>
      obtain ⟨hb, hr⟩ := hc
      cases j with
      | zero => simpa using hb
      | succ j0 => simpa using ih hr j0
    · simp at h

theorem trim_trailing_free_getD (l : List Bool) (j : Nat) :
    (trim_trailing_free l).getD j false = l.getD j false := by
  induction l generalizing j with
  | nil => simp [trim_trailing_free]
  | cons b rest ih =>
    simp only [trim_trailing_free]
    split
    · next hc =>
      obtain ⟨hb, hr⟩ := hc
      cases j with
      | zero => simp [hb]
      | succ j0 =>
        have := trim_trailing_free_nil_getD rest hr j0
        simpa [List.getD] using this.symm
    · cases j with
      | zero => simp
      | succ j0 => simpa using ih j0

theorem trim_trailing_free_last (l : List Bool) :
    trim_trailing_free l = [] ∨ (trim_trailing_free l).getLast? = some true := by
  induction l with
  | nil => left; rfl
  | cons b rest ih =>
    simp only [trim_trailing_free]
    split
    · left; rfl
    · next hc =>
      right
      rcases ih with hnil | hlast
      · have hb : b = true := by
          by_cases h : b = false
          · exact absurd ⟨h, hnil⟩ hc
          · simpa using h
        simp [hnil, hb]
      · match hm : trim_trailing_free rest with
        | [] => rw [hm] at hlast; simp at hlast
        | c :: t =>
          rw [hm] at hlast
          rw [List.getLast?_cons_cons]
          exact hlast

theorem getD_append_length (l : List Bool) (x : Bool) :
    (l ++ [x]).getD l.length false = x := by
  induction l with
  | nil => simp
  | cons b rest ih => simp [ih]

theorem getD_of_length_le (l : List Bool) (i : Nat) (h : l.length ≤ i) :
    l.getD i false = false := by
  induction l generalizing i with
  | nil => simp
  | cons b rest ih =>
    cases i with
    | zero => simp at h
    | succ i0 => simpa using ih i0 (by simpa using h)

/-- C7: `acquire_job_id` always returns the smallest positive job id not
currently in use (and marks it used); `release_job_id jid` marks exactly that id
free and trims all trailing free slots from the bitmap (the result has no
trailing free slot); and after acquiring ids 1, 2, 3 and releasing 2 the next
acquire returns 2 again. -/
theorem acquire_release_job_id_spec :
    (∀ l : List Bool,
       1 ≤ (acquire_job_id l).2 ∧
       ¬job_id_in_use l (acquire_job_id l).2 ∧
       (∀ k, 1 ≤ k → k < (acquire_job_id l).2 → job_id_in_use l k) ∧
       job_id_in_use (acquire_job_id l).1 (acquire_job_id l).2)
    ∧ (∀ (l : List Bool) (jid : Nat), 1 ≤ jid → jid - 1 < l.length →
         l.getD (jid - 1) false = true →
         (∀ k, job_id_in_use (release_job_id l jid) k ↔
                 (job_id_in_use l k ∧ k ≠ jid)) ∧
         (release_job_id l jid = [] ∨ (release_job_id l jid).getLast? = some true))
    ∧ ((acquire_job_id []).2 = 1 ∧
       (acquire_job_id (acquire_job_id []).1).2 = 2 ∧
       (acquire_job_id (acquire_job_id (acquire_job_id []).1).1).2 = 3 ∧
       (acquire_job_id (release_job_id
          (acquire_job_id (acquire_job_id (acquire_job_id []).1).1).1 2)).2 = 2) := by
  refine ⟨?_, ?_, by decide⟩
  · intro l
    cases hf : find_first_free l with
    | some i =>
      obtain ⟨hlen, hfree, hbefore⟩ := find_first_free_spec_some l i hf
      simp only [acquire_job_id, hf, job_id_in_use, Nat.add_sub_cancel]
      refine ⟨by omega, ?_, ?_, ?_⟩
      · intro hu
        rw [hfree] at hu
        exact Bool.false_ne_true hu.2
      · intro k h1 h2
        exact ⟨h1, hbefore (k - 1) (by omega)⟩
      · exact ⟨by omega, getD_set_self l i true hlen⟩
    | none =>
      have hall := find_first_free_spec_none l hf
      simp only [acquire_job_id, hf, job_id_in_use, Nat.add_sub_cancel]
      refine ⟨by omega, ?_, ?_, ?_⟩
      · intro hu
        rw [getD_of_length_le l l.length (le_refl _)] at hu
        exact Bool.false_ne_true hu.2
      · intro k h1 h2
        exact ⟨h1, hall (k - 1) (by omega)⟩
      · exact ⟨by omega, getD_append_length l true⟩
  · intro l jid h1 h2 h3
    refine ⟨?_, trim_trailing_free_last _⟩
    intro k
    simp only [release_job_id, job_id_in_use]
    rw [trim_trailing_free_getD]
    by_cases hk : k = jid
    · subst hk
      rw [getD_set_self l (k - 1) false h2]
      simp
    · constructor
      · rintro ⟨hk1, hx⟩
        rw [getD_set_ne l (jid - 1) (k - 1) false ?_] at hx
        · exact ⟨⟨hk1, hx⟩, hk⟩
        · omega
      · rintro ⟨⟨hk1, hx⟩, -⟩
        rw [getD_set_ne l (jid - 1) (k - 1) false ?_]
        · exact ⟨hk1, hx⟩
        · omega

/-- Witness for C7: releasing id 2 out of {1,2,3} leaves ids 1 and 3 in use. -/
theorem acquire_release_job_id_spec_witness :
    (job_id_in_use (release_job_id [true, true, true] 2) 1 ↔
      (job_id_in_use [true, true, true] 1 ∧ (1 : Nat) ≠ 2)) ∧
    (job_id_in_use (release_job_id [true, true, true] 2) 2 ↔
      (job_id_in_use [true, true, true] 2 ∧ (2 : Nat) ≠ 2)) :=
  ⟨(acquire_release_job_id_spec.2.1 [true, true, true] 2 (by decide) (by decide)
      (by decide)).1 1,
   (acquire_release_job_id_spec.2.1 [true, true, true] 2 (by decide) (by decide)
      (by decide)).1 2⟩

/-! ## job_signal (src/job.cpp)

The signal parameter is never read by the body: the function always delivers
SIGHUP. Delivery failures are modelled by oracles giving the return values of
the kill/killpg OS calls. -/

/-- The per-process loop of job_signal: signal each process that has not
completed and has a pid, stopping with result -1 at the first failed kill. -/
def job_signal_loop (kill_result : Int → Int) : List process_t → Int × List sig_action_t
  | [] => (0, [])
  | p :: rest =>
    if ¬p.completed then
      if p.pid ≠ 0 then
        if kill_result p.pid ≠ 0 then (-1, [.kill p.pid SIGHUP])
        else
          let r := job_signal_loop kill_result rest
          (r.1, .kill p.pid SIGHUP :: r.2)
      else job_signal_loop kill_result rest
    else job_signal_loop kill_result rest

/-- job_signal (src/job.cpp): hang up a whole job. If the job has its own
process group, one killpg of the group; otherwise kill each live process
individually. The `signal` argument is ignored by the source. -/
def job_signal (kill_result : Int → Int) (killpg_result : Int) (my_pid : Int)
    (j : job_t) (signal : Int) : Int × List sig_action_t :=
  if j.pgid ≠ my_pid then (killpg_result, [.killpg j.pgid SIGHUP])
  else job_signal_loop kill_result j.first_process

/-- The processes the individual-delivery loop is meant to reach: not completed
and with a nonzero pid. -/
def hup_eligible (ps : List process_t) : List Int :=
  (ps.filter (fun p => ¬p.completed ∧ p.pid ≠ 0)).map (fun p => p.pid)

theorem job_signal_loop_spec (kill_result : Int → Int) (ps : List process_t) :
    (((hup_eligible ps).all (fun q => kill_result q = 0)) →
       job_signal_loop kill_result ps =
         (0, (hup_eligible ps).map (fun q => .kill q SIGHUP))) ∧
    (¬ ((hup_eligible ps).all (fun q => kill_result q = 0)) →
       job_signal_loop kill_result ps =
         (-1, ((hup_eligible ps).takeWhile (fun q => kill_result q = 0) ++
               [((hup_eligible ps).dropWhile (fun q => kill_result q = 0)).headD 0]).map
                 (fun q => .kill q SIGHUP))) := by
  induction ps with
  | nil => simp [hup_eligible, job_signal_loop]
  | cons p rest ih =>
    by_cases hel : (¬p.completed ∧ p.pid ≠ 0)
    · have helig : hup_eligible (p :: rest) = p.pid :: hup_eligible rest := by
        simp [hup_eligible, List.filter_cons, hel]
      by_cases hkr : kill_result p.pid = 0
      · constructor
        · intro hall
          rw [helig] at hall ⊢
          simp only [List.all_cons, hkr, decide_True, Bool.true_and] at hall
          simp only [job_signal_loop, hel.1, hel.2, not_false_eq_true, if_true, hkr,
            ne_eq, not_true_eq_false, if_false]
          rw [ih.1 hall]
          simp [hkr]
        · intro hnall
          rw [helig] at hnall ⊢
          simp only [List.all_cons, hkr, decide_True, Bool.true_and] at hnall
          simp only [job_signal_loop, hel.1, hel.2, not_false_eq_true, if_true, hkr,
            ne_eq, not_true_eq_false, if_false]
          rw [ih.2 (by simpa using hnall)]
          simp [hkr]
      · constructor
        · intro hall
          rw [helig] at hall
          simp [hkr] at hall
        · intro hnall
          simp only [job_signal_loop, hel.1, hel.2, not_false_eq_true, if_true, hkr,
            ne_eq, not_false_eq_true, if_true]
          rw [helig]
          simp [List.takeWhile_cons, List.dropWhile_cons, hkr]
    · have helig : hup_eligible (p :: rest) = hup_eligible rest := by
        simp only [hup_eligible, List.filter_cons]
        split
        · next hc => exact absurd (by simpa using hc) hel
        · rfl
      have hstep : job_signal_loop kill_result (p :: rest) =
          job_signal_loop kill_result rest := by
        rcases not_and_or.mp hel with hcomp | hpid
        · have : p.completed := by simpa using hcomp
          simp [job_signal_loop, this]
        · have : ¬ p.pid ≠ 0 := hpid
          by_cases hc : p.completed
          · simp [job_signal_loop, hc]
          · simp [job_signal_loop, hc, this]
      rw [helig, hstep]
      exact ih

/-- C10 counterexample: with the shell itself as process group leader and two
live processes (pids 7 and 8), a failing delivery to pid 7 makes job_signal
stop: pid 8 — not completed, nonzero pid — is never sent SIGHUP, refuting the
claim that every such process is signaled. -/
theorem job_signal_break_cex :
    sig_action_t.kill 8 SIGHUP ∉
      (job_signal (fun q => if q = 7 then -1 else 0) 0 5
        { pgid := 5, job_id := 1, flags := 0,
          first_process :=
            [{ pid := 7, completed := false, stopped := false, status := .exited 0 },
             { pid := 8, completed := false, stopped := false, status := .exited 0 }] }
        15).2 := by
  decide

/-- C10 (amended): job_signal ignores its signal argument and always delivers
SIGHUP. If the job's process group differs from the shell's pid, SIGHUP goes
once to the whole group via killpg and the killpg result is returned; otherwise
SIGHUP is sent individually to each process that is not completed and has a
nonzero pid, in order, stopping at the first failed delivery: the result is 0
when every delivery succeeds, and -1 when one fails. -/
theorem job_signal_spec (kill_result : Int → Int) (killpg_result : Int)
    (my_pid : Int) (j : job_t) (sig1 sig2 : Int) :
    (job_signal kill_result killpg_result my_pid j sig1 =
       job_signal kill_result killpg_result my_pid j sig2) ∧
    (∀ a ∈ (job_signal kill_result killpg_result my_pid j sig1).2,
       (∃ p, a = .kill p SIGHUP) ∨ (∃ g, a = .killpg g SIGHUP)) ∧
    (j.pgid ≠ my_pid →
       job_signal kill_result killpg_result my_pid j sig1 =
         (killpg_result, [.killpg j.pgid SIGHUP])) ∧
    (j.pgid = my_pid →
       (((hup_eligible j.first_process).all (fun q => kill_result q = 0)) →
          job_signal kill_result killpg_result my_pid j sig1 =
            (0, (hup_eligible j.first_process).map (fun q => .kill q SIGHUP))) ∧
       (¬ ((hup_eligible j.first_process).all (fun q => kill_result q = 0)) →
          job_signal kill_result killpg_result my_pid j sig1 =
            (-1, ((hup_eligible j.first_process).takeWhile
                    (fun q => kill_result q = 0) ++
                  [((hup_eligible j.first_process).dropWhile
                      (fun q => kill_result q = 0)).headD 0]).map
                    (fun q => .kill q SIGHUP)))) := by
  refine ⟨rfl, ?_, ?_, ?_⟩
  · intro a ha
    unfold job_signal at ha
    split at ha
    · simp at ha
      subst ha
      right
      exact ⟨j.pgid, rfl⟩
    · next hpg =>
      have hpg2 : j.pgid = my_pid := by simpa using hpg
      rcases Classical.em
          ((hup_eligible j.first_process).all (fun q => kill_result q = 0)) with hall | hnall
      · rw [(job_signal_loop_spec kill_result j.first_process).1 hall] at ha
        simp at ha
        obtain ⟨q, -, rfl⟩ := ha
        left
        exact ⟨q, rfl⟩
      · rw [(job_signal_loop_spec kill_result j.first_process).2 hnall] at ha
        simp at ha
        rcases ha with ⟨q, -, rfl⟩ | rfl
        · left
          exact ⟨q, rfl⟩
        · left
          exact ⟨_, rfl⟩
  · intro hpg
    simp [job_signal, hpg]
  · intro hpg
    constructor
    · intro hall
      simp only [job_signal, hpg, ne_eq, not_true_eq_false, if_false]
      exact (job_signal_loop_spec kill_result j.first_process).1 hall
    · intro hnall
      simp only [job_signal, hpg, ne_eq, not_true_eq_false, if_false]
      exact (job_signal_loop_spec kill_result j.first_process).2 hnall

/-- Witness for C10: a two-process job in its own group gets exactly one
group-wide SIGHUP, whatever signal was requested. -/
theorem job_signal_spec_witness :
    job_signal (fun _ => 0) 0 5
      { pgid := 9, job_id := 1, flags := 0,
        first_process :=
          [{ pid := 7, completed := false, stopped := false, status := .exited 0 }] }
      15 = (0, [.killpg 9 SIGHUP]) :=
  (job_signal_spec (fun _ => 0) 0 5
    { pgid := 9, job_id := 1, flags := 0,
      first_process :=
        [{ pid := 7, completed := false, stopped := false, status := .exited 0 }] }
    15 15).2.2.1 (by decide)

/-! ## Job store (src/job.cpp): wait_for_job_in_parser

The store holds the pid → status map filled by the background reaper and a
flag telling whether the reaper thread runs. Blocking on the condition
variable cannot happen in the claims considered here (poll semantics), so the
wait is modelled up to its first suspension point. -/

structure job_store_t where
  status_map : List (Int × wait_status_t)
  waitpid_thread_running : Bool
deriving DecidableEq, Repr

def status_map_find (m : List (Int × wait_status_t)) (pid : Int) :
    Option wait_status_t :=
  match m with
  | [] => none
  | (q, s) :: rest => if q = pid then some s else status_map_find rest pid

def status_map_erase (m : List (Int × wait_status_t)) (pid : Int) :
    List (Int × wait_status_t) :=
  match m with
  | [] => []
  | (q, s) :: rest => if q = pid then rest else (q, s) :: status_map_erase rest pid

/-- The scan of wait_for_job_in_parser: the first process in job-list order
with a positive pid found in the status map is the one claimed. -/
def scan_jobs_for_reaped (jobs : List job_t) (m : List (Int × wait_status_t)) :
    Option (Int × wait_status_t) :=
  match jobs with
  | [] => none
  | j :: rest =>
    match scan_chain_for_reaped j.first_process m with
    | some r => some r
    | none => scan_jobs_for_reaped rest m
where
  scan_chain_for_reaped : List process_t → List (Int × wait_status_t) →
      Option (Int × wait_status_t)
    | [], _ => none
    | p :: rest, m =>
      if p.pid > 0 then
        match status_map_find m p.pid with
        | some s => some (p.pid, s)
        | none => scan_chain_for_reaped rest m
      else scan_chain_for_reaped rest m

/-- The outcome of one pass of job_store_t::wait_for_job_in_parser. The
blocking branches (timeout < 0: wait forever; timeout > 0: timed wait) suspend
on the condition variable and are represented by `blocked`. -/
inductive wait_outcome_t where
  | no_jobs
  | acquired (pid : Int) (status : wait_status_t)
  | poll_failure
  | blocked
deriving DecidableEq, Repr

/-- job_store_t::wait_for_job_in_parser (src/job.cpp), up to its first
suspension point: early-out when no reaper runs and the map is empty; scan the
parser's job list for a reaped pid, removing and returning the first match;
otherwise fail immediately when timeout is 0, or block on the condition
variable. -/
def wait_for_job (store : job_store_t) (jobs : List job_t)
    (timeout_usec : Int) : wait_outcome_t × job_store_t :=
  if ¬store.waitpid_thread_running ∧ store.status_map = [] then
    (.no_jobs, store)
  else
    match scan_jobs_for_reaped jobs store.status_map with
    | some (pid, s) =>
      (.acquired pid s, { store with status_map := status_map_erase store.status_map pid })
    | none =>
      if timeout_usec = 0 then (.poll_failure, store) else (.blocked, store)

theorem scan_jobs_for_reaped_none (jobs : List job_t)
    (m : List (Int × wait_status_t))
    (h : ∀ j ∈ jobs, ∀ p ∈ j.first_process, status_map_find m p.pid = none) :
    scan_jobs_for_reaped jobs m = none := by
  induction jobs with
  | nil => rfl
  | cons j rest ih =>
    have hchain : ∀ (ps : List process_t),
        (∀ p ∈ ps, status_map_find m p.pid = none) →
        scan_jobs_for_reaped.scan_chain_for_reaped ps m = none := by
      intro ps hps
      induction ps with
      | nil => rfl
      | cons p prest ihp =>
        have hp := hps p (by simp)
        simp only [scan_jobs_for_reaped.scan_chain_for_reaped, hp]
        have hrest := ihp (fun q hq => hps q (by simp [hq]))
        split
        · exact hrest
        · exact hrest
    simp only [scan_jobs_for_reaped]
    rw [hchain j.first_process (h j (by simp))]
    exact ih (fun j0 hj0 p hp => h j0 (by simp [hj0]) p hp)

/-- C8: when no process of any job in the parser's job list has its pid in the
store's pid-to-status map, a wait with timeout 0 fails immediately — the
outcome is a plain failure (never the blocking outcome, so the condition
variable is never waited on) and the store is unchanged. -/
theorem wait_for_job_poll_no_result (store : job_store_t) (jobs : List job_t)
    (h : ∀ j ∈ jobs, ∀ p ∈ j.first_process, status_map_find store.status_map p.pid = none) :
    ((wait_for_job store jobs 0).1 = .no_jobs ∨
     (wait_for_job store jobs 0).1 = .poll_failure) ∧
    (wait_for_job store jobs 0).2 = store := by
  unfold wait_for_job
  split
  · exact ⟨Or.inl rfl, rfl⟩
  · rw [scan_jobs_for_reaped_none jobs store.status_map h]
    exact ⟨Or.inr rfl, rfl⟩

/-- Witness for C8: a one-job parser whose only process has not exited polls
out with no result. -/
theorem wait_for_job_poll_no_result_witness :
    ((wait_for_job { status_map := [(4, .exited 0)], waitpid_thread_running := true }
        [{ pgid := 9, job_id := 1, flags := 0,
           first_process :=
             [{ pid := 7, completed := false, stopped := false, status := .exited 0 }] }]
        0).1 = .no_jobs ∨
     (wait_for_job { status_map := [(4, .exited 0)], waitpid_thread_running := true }
        [{ pgid := 9, job_id := 1, flags := 0,
           first_process :=
             [{ pid := 7, completed := false, stopped := false, status := .exited 0 }] }]
        0).1 = .poll_failure) :=
  (wait_for_job_poll_no_result
    { status_map := [(4, .exited 0)], waitpid_thread_running := true }
    [{ pgid := 9, job_id := 1, flags := 0,
       first_process :=
         [{ pid := 7, completed := false, stopped := false, status := .exited 0 }] }]
    (by decide)).1

/-! ## handle_child_status (src/proc.cpp) -/

/-- mark_process_status (src/proc.cpp): record the raw status and derive the
stopped/completed flags. The final branch is the "exited abnormally" warning
path of the source, unreachable for decoded statuses. -/
def mark_process_status (p : process_t) (status : wait_status_t) : process_t :=
  let p := { p with status := status }
  if WIFSTOPPED status then { p with stopped := true }
  else if WIFSIGNALED status ∨ WIFEXITED status then { p with completed := true }
  else { p with completed := true }

/-- The inner loop of handle_child_status over one job's process chain, with
`prev` the process preceding the cursor: on a pid match, mark the status and —
if the matched process completed while its predecessor has not and has a pid —
send the predecessor SIGPIPE. Returns none when the pid is not in the chain. -/
def scan_chain (prev : Option process_t) (pid : Int) (status : wait_status_t) :
    List process_t → Option (List process_t × List sig_action_t)
  | [] => none
  | p :: rest =>
    if p.pid = pid then
      let p2 := mark_process_status p status
      let acts : List sig_action_t :=
        match prev with
        | some pr =>
          if p2.completed ∧ ¬pr.completed ∧ pr.pid ≠ 0 then [.kill pr.pid SIGPIPE]
          else []
        | none => []
      some (p2 :: rest, acts)
    else
      match scan_chain (some p) pid status rest with
      | some (rest2, acts) => some (p :: rest2, acts)
      | none => none

/-- The outer loop of handle_child_status over the parser's job list, stopping
at the first job containing the pid. -/
def scan_jobs (pid : Int) (status : wait_status_t) :
    List job_t → List job_t × List sig_action_t × Bool
  | [] => ([], [], false)
  | j :: rest =>
    match scan_chain none pid status j.first_process with
    | some (ps2, acts) => ({ j with first_process := ps2 } :: rest, acts, true)
    | none =>
      let r := scan_jobs pid status rest
      (j :: r.1, r.2.1, r.2.2)

/-- handle_child_status (src/proc.cpp): locate the process with the given pid
across the parser's jobs, mark it, possibly SIGPIPE its predecessor; then for a
fatal SIGINT/SIGQUIT either re-raise against the shell itself (non-interactive
session) or skip all blocks (interactive, process found). A pid that is not
found is a silent no-op. -/
def handle_child_status (is_interactive_session : Bool) (jobs : List job_t)
    (pid : Int) (status : wait_status_t) :
    List job_t × List sig_action_t × Bool :=
  let r := scan_jobs pid status jobs
  let acts :=
    if WIFSIGNALED status ∧ (WTERMSIG status = SIGINT ∨ WTERMSIG status = SIGQUIT) then
      if ¬is_interactive_session then r.2.1 ++ [.kill_self (WTERMSIG status)]
      else if r.2.2 then r.2.1 ++ [.skip_all_blocks] else r.2.1
    else r.2.1
  (r.1, acts, r.2.2)

/-- The predecessor the source compares against: the last element of the prefix
before the matched process, or the incoming `prev` when that prefix is empty. -/
def last_or (prev : Option process_t) (l : List process_t) : Option process_t :=
  match l.getLast? with
  | some x => some x
  | none => prev

/-- The SIGPIPE decision of handle_child_status as a function of the
predecessor and the freshly marked process. -/
def sigpipe_acts (pr : Option process_t) (p2 : process_t) : List sig_action_t :=
  match pr with
  | some q => if p2.completed ∧ ¬q.completed ∧ q.pid ≠ 0 then [.kill q.pid SIGPIPE] else []
  | none => []

theorem last_or_cons (prev : Option process_t) (q : process_t)
    (l : List process_t) : last_or prev (q :: l) = last_or (some q) l := by
  cases l with
  | nil => simp [last_or]
  | cons c t =>
    simp only [last_or, List.getLast?_cons_cons]
    rw [List.getLast?_eq_getLast_of_ne_nil (List.cons_ne_nil c t)]

theorem scan_chain_not_found (pid : Int) (status : wait_status_t)
    (ps : List process_t) (h : ∀ q ∈ ps, q.pid ≠ pid) :
    ∀ prev, scan_chain prev pid status ps = none := by
  induction ps with
  | nil => intro prev; rfl
  | cons p rest ih =>
    intro prev
    have hp : p.pid ≠ pid := h p (by simp)
    simp only [scan_chain, hp, if_false]
    rw [ih (fun q hq => h q (by simp [hq])) (some p)]

theorem scan_chain_found (pid : Int) (status : wait_status_t)
    (l r : List process_t) (p : process_t)
    (hl : ∀ q ∈ l, q.pid ≠ pid) (hp : p.pid = pid) :
    ∀ prev, scan_chain prev pid status (l ++ p :: r) =
      some (l ++ mark_process_status p status :: r,
            sigpipe_acts (last_or prev l) (mark_process_status p status)) := by
  induction l with
  | nil =>
    intro prev
    simp only [List.nil_append, scan_chain, hp, if_true, last_or, List.getLast?_nil]
    rfl
  | cons q l0 ih =>
    intro prev
    have hq : q.pid ≠ pid := hl q (by simp)
    simp only [List.cons_append, scan_chain, hq, if_false, List.append_eq]
    rw [ih (fun x hx => hl x (by simp [hx])) (some q), last_or_cons]

theorem scan_jobs_found (pid : Int) (status : wait_status_t)
    (J1 J2 : List job_t) (j : job_t) (l r : List process_t) (p : process_t)
    (hJ1 : ∀ j0 ∈ J1, ∀ q ∈ j0.first_process, q.pid ≠ pid)
    (hchain : j.first_process = l ++ p :: r)
    (hl : ∀ q ∈ l, q.pid ≠ pid) (hp : p.pid = pid) :
    scan_jobs pid status (J1 ++ j :: J2) =
      (J1 ++ { j with first_process := l ++ mark_process_status p status :: r } :: J2,
       sigpipe_acts (last_or none l) (mark_process_status p status), true) := by
  induction J1 with
  | nil =>
    simp only [List.nil_append, scan_jobs, hchain]
    rw [scan_chain_found pid status l r p hl hp none]
  | cons j0 rest ih =>
    simp only [List.cons_append, scan_jobs, List.append_eq]
    rw [scan_chain_not_found pid status j0.first_process (hJ1 j0 (by simp)) none]
    rw [ih (fun x hx q hq => hJ1 x (by simp [hx]) q hq)]

theorem last_or_none_eq_some (l : List process_t) (x : process_t)
    (h : last_or none l = some x) : ∃ l0, l = l0 ++ [x] := by
  unfold last_or at h
  cases hm : l.getLast? with
  | none => rw [hm] at h; exact absurd h (by simp)
  | some y =>
    rw [hm] at h
    simp only [Option.some.injEq] at h
    have hx : x ∈ l.getLast? := by rw [hm, h]; simp
    obtain ⟨h1, h2⟩ := List.mem_getLast?_eq_getLast hx
    refine ⟨l.dropLast, ?_⟩
    rw [h2]
    exact (List.dropLast_append_getLast h1).symm

/-- C5: for every pipeline job, when handle_child_status records completion of
a process p whose immediately preceding process pr in the same chain is not
completed and has a nonzero pid, SIGPIPE is sent to pr; every SIGPIPE this path
emits targets exactly that predecessor (never a successor); and when the
completing process is the first of its pipeline — the earlier stage finishing
while later stages still run — the pipeline-scan path sends no signal at all. -/
theorem handle_child_status_sigpipe (interactive : Bool)
    (J1 J2 : List job_t) (j : job_t) (l r : List process_t) (p : process_t)
    (pid : Int) (status : wait_status_t)
    (hJ1 : ∀ j0 ∈ J1, ∀ q ∈ j0.first_process, q.pid ≠ pid)
    (hchain : j.first_process = l ++ p :: r)
    (hl : ∀ q ∈ l, q.pid ≠ pid)
    (hp : p.pid = pid) :
    (∀ pr l0, l = l0 ++ [pr] → (mark_process_status p status).completed = true →
       pr.completed = false → pr.pid ≠ 0 →
       sig_action_t.kill pr.pid SIGPIPE ∈
         (handle_child_status interactive (J1 ++ j :: J2) pid status).2.1) ∧
    (∀ tgt, sig_action_t.kill tgt SIGPIPE ∈
         (handle_child_status interactive (J1 ++ j :: J2) pid status).2.1 →
       ∃ pr l0, l = l0 ++ [pr] ∧ tgt = pr.pid ∧
         (mark_process_status p status).completed = true ∧
         pr.completed = false ∧ pr.pid ≠ 0) ∧
    (l = [] → (scan_jobs pid status (J1 ++ j :: J2)).2.1 = []) := by
  have hscan := scan_jobs_found pid status J1 J2 j l r p hJ1 hchain hl hp
  have hbase :
      ∀ a, a ∈ sigpipe_acts (last_or none l) (mark_process_status p status) →
        a ∈ (handle_child_status interactive (J1 ++ j :: J2) pid status).2.1 := by
    intro a ha
    unfold handle_child_status
    rw [hscan]
    dsimp only
    split
    · split
      · exact List.mem_append_left _ ha
      · exact List.mem_append_left _ ha
    · exact ha
  have hbase2 :
      ∀ tgt, sig_action_t.kill tgt SIGPIPE ∈
          (handle_child_status interactive (J1 ++ j :: J2) pid status).2.1 →
        sig_action_t.kill tgt SIGPIPE ∈
          sigpipe_acts (last_or none l) (mark_process_status p status) := by
    intro tgt hmem
    unfold handle_child_status at hmem
    rw [hscan] at hmem
    dsimp only at hmem
    split at hmem
    · split at hmem
      · rcases List.mem_append.mp hmem with h | h
        · exact h
        · simp at h
      · rcases List.mem_append.mp hmem with h | h
        · exact h
        · simp at h
    · exact hmem
  refine ⟨?_, ?_, ?_⟩
  · intro pr l0 hdecomp hcompl hprc hprpid
    apply hbase
    have hlast : last_or none l = some pr := by
      rw [hdecomp]
      unfold last_or
      rw [List.getLast?_concat]
    rw [hlast]
    unfold sigpipe_acts
    simp [hcompl, hprc, hprpid]
  · intro tgt hmem
    have hin := hbase2 tgt hmem
    cases hpr : last_or none l with
    | none => rw [hpr] at hin; simp [sigpipe_acts] at hin
    | some pr =>
      rw [hpr] at hin
      simp only [sigpipe_acts] at hin
      split at hin
      · next hcond =>
        simp at hin
        obtain ⟨l0, hdec⟩ := last_or_none_eq_some l pr hpr
        exact ⟨pr, l0, hdec, hin,
          by simpa using hcond.1, by simpa using hcond.2.1, hcond.2.2⟩
      · simp at hin
  · intro hnil
    subst hnil
    rw [hscan]
    simp [sigpipe_acts, last_or]

/-- Witness for C5: in a two-stage pipeline, the later stage exiting while the
first (pid 7) still runs sends pid 7 a SIGPIPE. -/
theorem handle_child_status_sigpipe_witness :
    sig_action_t.kill 7 SIGPIPE ∈
      (handle_child_status true
        [{ pgid := 9, job_id := 1, flags := 0,
           first_process :=
             [{ pid := 7, completed := false, stopped := false, status := .exited 0 },
              { pid := 8, completed := false, stopped := false, status := .exited 0 }] }]
        8 (.exited 0)).2.1 :=
  (handle_child_status_sigpipe true [] []
    { pgid := 9, job_id := 1, flags := 0,
      first_process :=
        [{ pid := 7, completed := false, stopped := false, status := .exited 0 },
         { pid := 8, completed := false, stopped := false, status := .exited 0 }] }
    [{ pid := 7, completed := false, stopped := false, status := .exited 0 }] []
    { pid := 8, completed := false, stopped := false, status := .exited 0 }
    8 (.exited 0) (by simp) (by decide) (by decide) (by decide)).1
    { pid := 7, completed := false, stopped := false, status := .exited 0 } []
    (by decide) (by decide) (by decide) (by decide)

/-! ## job_reap (src/proc.cpp)

Firing a PROCESS_EXIT / JOB_EXIT event can run arbitrary script code; its
effect on the parser's last exit status is modelled by an arbitrary function
`g` applied at every event-firing point. Console printing is dropped; the
`found` flag it drives is kept. -/

/-- Parser-side state consulted by job_reap. -/
structure parser_state_t where
  last_status : Int
  jobs : List job_t
deriving DecidableEq, Repr

/-- Process-wide state of the reaping path: the re-entrancy guard of job_reap
(the function-local static `locked`) and the job store. -/
structure reap_globals_t where
  locked : Bool
  store : job_store_t
deriving DecidableEq, Repr

/-- One process in the notification loop of job_reap: for a completed process
with a pid, fire PROCESS_EXIT (running `g`), and for a death by a signal other
than the self-inflicted SIGPIPE record the notification (found flag, NOTIFIED
flag when the process is the whole job) and clear the stored status. The
accumulator is (last_status, found, job_becomes_notified). -/
def reap_proc_step (g : Int → Int) (skip_notification : Bool) (proc_is_job : Bool)
    (p : process_t) (acc : Int × Bool × Bool) : process_t × (Int × Bool × Bool) :=
  if ¬p.completed then (p, acc)
  else if p.pid = 0 then (p, acc)
  else
    let ls := g acc.1
    if WIFSIGNALED p.status ∧ WTERMSIG p.status ≠ SIGPIPE then
      ({ p with status := .exited 0 },
       (ls, acc.2.1 ∨ ¬skip_notification, acc.2.2 ∨ proc_is_job))
    else (p, (ls, acc.2.1, acc.2.2))

/-- The notification loop over the processes after the first: `proc_is_job`
(this process is the job's only process) is false for them. -/
def reap_procs_tail (g : Int → Int) (sk : Bool) :
    List process_t → (Int × Bool × Bool) → List process_t × (Int × Bool × Bool)
  | [], acc => ([], acc)
  | p :: rest, acc =>
    let r1 := reap_proc_step g sk false p acc
    let r2 := reap_procs_tail g sk rest r1.2
    (r1.1 :: r2.1, r2.2)

/-- The notification loop over a job's process chain; the head process is the
whole job exactly when it has no successor. -/
def reap_procs (g : Int → Int) (sk : Bool) (ps : List process_t)
    (acc : Int × Bool × Bool) : List process_t × (Int × Bool × Bool) :=
  match ps with
  | [] => ([], acc)
  | p :: rest =>
    let r1 := reap_proc_step g sk (rest = []) p acc
    let r2 := reap_procs_tail g sk rest r1.2
    (r1.1 :: r2.1, r2.2)

/-- The per-job body of job_reap's main loop: skip background jobs when only
console-silent jobs are being reaped; fire per-process events; for a fully
completed job fire the two JOB_EXIT events (keyed by -pgid and by job id, each
running `g`) and free the job; for a fully stopped, unnotified job record the
stopped notice. Returns (surviving job, last_status, found). -/
def reap_one_job (g : Int → Int) (interactive : Bool) (j : job_t)
    (ls0 : Int) (found0 : Bool) : Option job_t × Int × Bool :=
  if ¬job_get_flag j JOB_SKIP_NOTIFICATION ∧ ¬interactive ∧
      ¬job_get_flag j JOB_FOREGROUND then
    (some j, ls0, found0)
  else
    let r := reap_procs g (job_get_flag j JOB_SKIP_NOTIFICATION) j.first_process
               (ls0, found0, false)
    let j2 : job_t :=
      { j with first_process := r.1,
               flags := if r.2.2.2 then j.flags ||| JOB_NOTIFIED else j.flags }
    if job_is_completed j2 then
      let found2 := r.2.2.1 ∨
        (¬job_get_flag j2 JOB_FOREGROUND ∧ ¬job_get_flag j2 JOB_NOTIFIED ∧
         ¬job_get_flag j2 JOB_SKIP_NOTIFICATION)
      (none, g (g r.2.1), found2)
    else if job_is_stopped j2 ∧ ¬job_get_flag j2 JOB_NOTIFIED then
      (some { j2 with flags := j2.flags ||| JOB_NOTIFIED },
       r.2.1, r.2.2.1 ∨ ¬job_get_flag j2 JOB_SKIP_NOTIFICATION)
    else (some j2, r.2.1, r.2.2.1)

/-- job_reap's main loop over the job list. -/
def reap_all_jobs (g : Int → Int) (interactive : Bool) :
    List job_t → Int → Bool → List job_t × Int × Bool
  | [], ls, found => ([], ls, found)
  | j :: rest, ls, found =>
    let r1 := reap_one_job g interactive j ls found
    let r2 := reap_all_jobs g interactive rest r1.2.1 r1.2.2
    (match r1.1 with
     | some j2 => j2 :: r2.1
     | none => r2.1, r2.2.1, r2.2.2)

/-- job_reap (src/proc.cpp): guarded against re-entry by `locked`; runs a
non-blocking reap pass (process_mark_finished_children → one poll of the job
store followed by handle_child_status), saves the parser's last exit status,
walks the job list firing events and freeing finished jobs, and restores the
saved status before returning. -/
def job_reap (g : Int → Int) (sess_interactive : Bool) (gs : reap_globals_t)
    (ps : parser_state_t) (interactive : Bool) :
    reap_globals_t × parser_state_t × Bool :=
  if gs.locked then (gs, ps, false)
  else
    let gs1 : reap_globals_t := { gs with locked := true }
    let reaped := wait_for_job gs1.store ps.jobs 0
    let jobs1 :=
      match reaped.1 with
      | .acquired pid st => (handle_child_status sess_interactive ps.jobs pid st).1
      | _ => ps.jobs
    let ps1 : parser_state_t := { ps with jobs := jobs1 }
    let saved_status := ps1.last_status
    let r := reap_all_jobs g interactive ps1.jobs ps1.last_status false
    ({ gs1 with store := reaped.2, locked := false },
     { ps1 with jobs := r.1, last_status := saved_status }, r.2.2)

/-- C9: the parser's last exit status after job_reap returns equals its value
at entry, whatever the event handlers run while reaping (modelled by the
arbitrary status mutation `g`) did to it in between. -/
theorem job_reap_preserves_last_status (g : Int → Int) (sess_interactive : Bool)
    (gs : reap_globals_t) (ps : parser_state_t) (interactive : Bool) :
    (job_reap g sess_interactive gs ps interactive).2.1.last_status =
      ps.last_status := by
  unfold job_reap
  split
  · rfl
  · rfl

/-! ## Environment stack (src/env.cpp)

The scope chain is a list of nodes above the global node, top first; the last
local node's parent is the global node. A node reference is `some i` for the
i-th local node and `none` for the global node. The `std::map` variable tables
are association lists (first occurrence wins; iteration order is the only
difference, and no property below depends on it). -/

/-- The placeholder for a zero-element array value (ENV_NULL, src/env.cpp). -/
def ENV_NULL : String := "\x1d"

/-- The array separator byte (ARRAY_SEP, 0x1e). -/
def ARRAY_SEP_CHAR : Char := '\x1e'

def ENV_LOCAL : Nat := 1
def ENV_EXPORT : Nat := 2
def ENV_GLOBAL : Nat := 4
def ENV_USER : Nat := 8
def ENV_UNEXPORT : Nat := 16
def ENV_UNIVERSAL : Nat := 32

def ENV_PERM : Int := 1
def ENV_SCOPE : Int := 2
def ENV_INVALID : Int := 3

/-- var_entry_t (src/env.h): value and export flag. -/
structure var_entry_t where
  val : String
  exportv : Bool
deriving DecidableEq, Repr, Inhabited

/-- env_node_t (src/env.cpp): variable table, the new-scope marker and the
probabilistic "may export" flag. The parent link is positional. -/
structure env_node_t where
  env : List (String × var_entry_t)
  new_scope : Bool
  exportv : Bool
deriving DecidableEq, Repr, Inhabited

/-- env_node_t::find_entry. -/
def find_entry (t : List (String × var_entry_t)) (key : String) :
    Option var_entry_t :=
  match t with
  | [] => none
  | (k, e) :: rest => if k = key then some e else find_entry rest key

/-- The write through env_node_t::find_or_create_entry: replace the existing
entry or create a new one. -/
def set_entry (t : List (String × var_entry_t)) (key : String) (e : var_entry_t) :
    List (String × var_entry_t) :=
  match t with
  | [] => [(key, e)]
  | (k, e0) :: rest =>
    if k = key then (k, e) :: rest else (k, e0) :: set_entry rest key e

/-- Table of read-only names (env_read_only filled in env_init, SHLVL
included). -/
def is_read_only (key : String) : Bool :=
  key = "status" ∨ key = "history" ∨ key = "version" ∨ key = "_" ∨
  key = "LINES" ∨ key = "COLUMNS" ∨ key = "PWD" ∨ key = "FISH_VERSION" ∨
  key = "SHLVL"

/-- Table of electric (computed-on-read) names (env_electric, env_init). -/
def is_electric (key : String) : Bool :=
  key = "history" ∨ key = "status" ∨ key = "umask" ∨ key = "COLUMNS" ∨
  key = "LINES"

/-- The locale_variable table (src/env.cpp). -/
def locale_variable : List String :=
  ["LANG", "LC_ALL", "LC_COLLATE", "LC_CTYPE", "LC_MESSAGES", "LC_MONETARY",
   "LC_NUMERIC", "LC_TIME"]

/-- variable_is_colon_delimited_array (src/env.cpp). -/
def variable_is_colon_delimited_array (key : String) : Bool :=
  key = "PATH" ∨ key = "MANPATH" ∨ key = "CDPATH"

/-- A change kind of the universal store (fish_message_type_t values consumed
by universal_callback). -/
inductive uvar_msg_t where
  | set_kind
  | set_export_kind
  | erase_kind
deriving DecidableEq, Repr

/-- One remote change delivered by the universal store's sync. -/
structure uvar_change_t where
  type : uvar_msg_t
  key : String
  val : String
deriving DecidableEq, Repr

def uvar_get (u : List (String × String × Bool)) (key : String) : Option String :=
  match u with
  | [] => none
  | (k, v, _) :: rest => if k = key then some v else uvar_get rest key

/-- env_universal_t::get_export: false for an absent key. -/
def uvar_get_export (u : List (String × String × Bool)) (key : String) : Bool :=
  match u with
  | [] => false
  | (k, _, e) :: rest => if k = key then e else uvar_get_export rest key

def uvar_set (u : List (String × String × Bool)) (key val : String)
    (exportv : Bool) : List (String × String × Bool) :=
  match u with
  | [] => [(key, val, exportv)]
  | (k, v, e) :: rest =>
    if k = key then (k, val, exportv) :: rest else (k, v, e) :: uvar_set rest key val exportv

def uvar_remove (u : List (String × String × Bool)) (key : String) :
    List (String × String × Bool) :=
  match u with
  | [] => []
  | (k, v, e) :: rest =>
    if k = key then rest else (k, v, e) :: uvar_remove rest key

/-- The whole mutable state the environment stack operates on: the scope chain
(locals above the distinguished global node), the universal table with its
pending remote changes, the per-command barrier flag, the export-array cache
and dirty flag, and the externally observable umask / last exit status. -/
structure env_state_t where
  locals : List env_node_t
  global : env_node_t
  uvars : List (String × String × Bool)
  pending : List uvar_change_t
  proc_had_barrier : Bool
  has_changed_exported : Bool
  export_array : List String
  umask_val : Nat
  last_status : Int
deriving DecidableEq, Repr

/-- External collaborators of the environment stack: path canonicalization for
PWD/HOME, and the sources of the remaining electric values (history text and
terminal size). Main-thread execution is assumed, as the source asserts. -/
structure env_ext_t where
  canon : String → String
  history_repr : String
  term_width : Int
  term_height : Int

/-- A reference into the scope chain: some i = locals[i], none = global node. -/
abbrev node_ref_t := Option Nat

def node_at (st : env_state_t) : node_ref_t → env_node_t
  | none => st.global
  | some i => st.locals.getD i default

def with_node_at (st : env_state_t) : node_ref_t → env_node_t → env_state_t
  | none, n => { st with global := n }
  | some i, n => { st with locals := st.locals.set i n }

/-- Modelled from the spec: env_universal_t::sync (the universal variable
store, env_universal_common, is not part of this source tree). The barrier
pushes local changes, pulls the pending remote changes into the local view and
delivers one callback per change; universal_callback (src/env.cpp) marks the
export array dirty and fires a VARIABLE event for every SET/SET_EXPORT/ERASE
callback. -/
def apply_uvar_change (u : List (String × String × Bool)) (c : uvar_change_t) :
    List (String × String × Bool) :=
  match c.type with
  | .set_kind => uvar_set u c.key c.val false
  | .set_export_kind => uvar_set u c.key c.val true
  | .erase_kind => uvar_remove u c.key

/-- env_universal_barrier (src/env.cpp): sync the universal store, then run
universal_callback on every delivered change. -/
def env_universal_barrier (st : env_state_t) : env_state_t × List (List String) :=
  let u := st.pending.foldl apply_uvar_change st.uvars
  let evs := st.pending.map (fun c =>
    ["VARIABLE", match c.type with | .erase_kind => "ERASE" | _ => "SET", c.key])
  let changed := st.has_changed_exported ∨ st.pending ≠ []
  ({ st with uvars := u, pending := [], has_changed_exported := changed }, evs)

/-- env_stack_t::get_node (src/env.cpp): the first node of the visible chain —
walking by next_scope, which jumps to the global node at a new-scope boundary —
holding an entry for the key. -/
def get_node_go (locals : List env_node_t) (global : env_node_t) (key : String) :
    Option node_ref_t :=
  match locals with
  | [] => if (find_entry global.env key).isSome then some none else none
  | n :: rest =>
    if (find_entry n.env key).isSome then some (some 0)
    else if n.new_scope then
      (if (find_entry global.env key).isSome then some none else none)
    else
      match get_node_go rest global key with
      | some (some i) => some (some (i + 1))
      | some none => some none
      | none => none

def get_node (st : env_state_t) (key : String) : Option node_ref_t :=
  get_node_go st.locals st.global key

/-- The default target for a new variable of unspecified scope: the innermost
node that is a new-scope boundary, or the global node (the loop
`while (node->next && !node->new_scope)` in env_stack_t::set). -/
def default_target_ref (locals : List env_node_t) : node_ref_t :=
  match locals with
  | [] => none
  | n :: rest =>
    if n.new_scope then some 0
    else
      match default_target_ref rest with
      | some i => some (i + 1)
      | none => none

/-- env_stack_t::local_scope_exports (src/env.cpp), over the chain above the
global node. -/
def local_scope_exports : List env_node_t → Bool
  | [] => false
  | n :: rest => if n.exportv then true else if n.new_scope then false else local_scope_exports rest

/-- env_stack_t::push (src/env.cpp): dirty the export cache first when pushing
a shadowing scope over a chain that may export, then stack the new node. -/
def env_push (st : env_state_t) (new_scope : Bool) : env_state_t :=
  let st1 := if new_scope ∧ local_scope_exports st.locals
             then { st with has_changed_exported := true } else st
  { st1 with locals := { env := [], new_scope := new_scope, exportv := false } :: st1.locals }

/-- env_stack_t::pop (src/env.cpp): refuse to pop the global node (the source
logs a consistency error via sanity_lose and leaves the stack alone); dirty
the export cache when the popped node shadowed exports or contained any
exported entry; locale changes re-derive the locale (an external effect). -/
def env_pop (st : env_state_t) : env_state_t :=
  match st.locals with
  | [] => st
  | killme :: rest =>
    let st1 := if killme.new_scope ∧ (killme.exportv ∨ local_scope_exports rest)
               then { st with has_changed_exported := true } else st
    let st2 := { st1 with locals := rest }
    if killme.env.any (fun kv => kv.2.exportv)
    then { st2 with has_changed_exported := true } else st2

/-! ### umask parsing and rendering -/

/-- The whitespace class skipped by wcstol. -/
def is_space_char (c : Char) : Bool :=
  c = ' ' ∨ c = '\t' ∨ c = '\n' ∨ c = '\x0b' ∨ c = '\x0c' ∨ c = '\r'

def is_oct_digit (c : Char) : Bool := '0' ≤ c ∧ c ≤ '7'

def oct_value (ds : List Char) : Nat :=
  ds.foldl (fun a c => a * 8 + (c.toNat - 48)) 0

/-- wcstol(val, &end, 8) as used by the umask special case of
env_stack_t::set: skip whitespace, optional sign, octal digits; the result is
the signed value and the unconsumed tail (the whole input when no digit was
converted, matching end == val). An out-of-range input clamps to LONG_MAX or
LONG_MIN with ERANGE, which the caller's [0, 0777] range check rejects either
way, so the unbounded value is equivalent for the accept/reject outcome. -/
def wcstol_oct (s : List Char) : Int × List Char :=
  let afterWs := s.dropWhile is_space_char
  let signNeg : Bool := afterWs.head? = some '-'
  let afterSign :=
    if afterWs.head? = some '-' ∨ afterWs.head? = some '+' then afterWs.tail
    else afterWs
  let ds := afterSign.takeWhile is_oct_digit
  let rest := afterSign.dropWhile is_oct_digit
  if ds = [] then (0, s)
  else (if signNeg then -(oct_value ds : Int) else (oct_value ds : Int), rest)

/-- The canonical rendering of the umask by env_stack_t::get:
format_string(L"0%0.3o", get_umask()) — a leading 0 then the octal digits,
zero-padded to at least three. -/
def render_umask (m : Nat) : String :=
  let ds := Nat.toDigits 8 m
  "0" ++ String.mk (List.replicate (3 - ds.length) '0' ++ ds)

/-! ### env_stack_t::set -/

/-- The `if (!done)` commit of env_stack_t::set: write the entry into the
chosen node via find_or_create_entry, raise the node's may-export flag on an
exported write, and dirty the export cache when any export-relevant state was
or becomes true. -/
def commit_node (st : env_state_t) (ref : node_ref_t) (key vs : String)
    (var_mode : Nat) : env_node_t :=
  let node := node_at st ref
  let newExport : Bool := var_mode &&& ENV_EXPORT != 0
  { node with env := set_entry node.env key { val := vs, exportv := newExport },
              exportv := if newExport then true else node.exportv }

def commit_set (st : env_state_t) (ref : node_ref_t) (key vs : String)
    (var_mode : Nat) (has_changed_old has_changed_new0 : Bool) : env_state_t :=
  let node := node_at st ref
  let entry_was_exported :=
    match find_entry node.env key with
    | some e => e.exportv
    | none => false
  let has_changed_new1 := has_changed_new0 || entry_was_exported
  let newExport : Bool := var_mode &&& ENV_EXPORT != 0
  let has_changed_new2 := has_changed_new1 || newExport
  let st2 := with_node_at st ref (commit_node st ref key vs var_mode)
  if has_changed_old || has_changed_new2 then { st2 with has_changed_exported := true }
  else st2

/-- The node env_stack_t::set targets for ENV_LOCAL: the top of the stack,
which is the global node when no local scope exists. -/
def top_ref (st : env_state_t) : node_ref_t :=
  if st.locals.isEmpty then none else some 0

/-- env_stack_t::set (src/env.cpp). Returns (status, new state, fired events).
PWD/HOME values are canonicalized (the source recurses on a changed value;
path canonicalization is idempotent, so the recursion reaches the body after
one application, modelled here directly). react_to_variable_change only
touches locale/terminal collaborators and leaves this state alone. -/
def env_set (ext : env_ext_t) (st0 : env_state_t) (key : String)
    (val0 : Option String) (var_mode : Nat) :
    Int × env_state_t × List (List String) :=
  let has_changed_old := st0.has_changed_exported
  let val : Option String :=
    match val0 with
    | some v => some (if key = "PWD" ∨ key = "HOME" then ext.canon v else v)
    | none => none
  if (var_mode &&& (ENV_LOCAL ||| ENV_UNIVERSAL) ≠ 0) ∧
      (is_read_only key ∨ is_electric key) then
    (ENV_SCOPE, st0, [])
  else if (var_mode &&& ENV_EXPORT ≠ 0) ∧ is_electric key then
    (ENV_SCOPE, st0, [])
  else if (var_mode &&& ENV_USER ≠ 0) ∧ is_read_only key then
    (ENV_PERM, st0, [])
  else if key = "umask" then
    match val with
    | some v =>
      if v ≠ "" then
        let parsed := wcstol_oct v.data
        if parsed.2 = [] ∧ parsed.1 ≤ 511 ∧ 0 ≤ parsed.1 then
          (0, { st0 with umask_val := parsed.1.toNat }, [])
        else (ENV_INVALID, st0, [])
      else (ENV_INVALID, st0, [])
    | none => (ENV_INVALID, st0, [])
  else
    let vs : String := val.getD ENV_NULL
    if var_mode &&& ENV_UNIVERSAL ≠ 0 then
      let old_export := uvar_get_export st0.uvars key
      let new_export :=
        if var_mode &&& ENV_EXPORT ≠ 0 then true
        else if var_mode &&& ENV_UNEXPORT ≠ 0 then false
        else old_export
      let st1 := { st0 with uvars := uvar_set st0.uvars key vs new_export }
      let b := env_universal_barrier st1
      let st3 := if old_export ∨ new_export
                 then { b.1 with has_changed_exported := true } else b.1
      (0, st3, b.2)
    else
      let preexisting := get_node st0 key
      let preexisting_entry_exportv :=
        match preexisting with
        | some ref =>
          (match find_entry (node_at st0 ref).env key with
           | some e => e.exportv
           | none => false)
        | none => false
      if var_mode &&& ENV_GLOBAL ≠ 0 then
        (0, commit_set st0 none key vs var_mode has_changed_old
              preexisting_entry_exportv, [["VARIABLE", "SET", key]])
      else if var_mode &&& ENV_LOCAL ≠ 0 then
        (0, commit_set st0 (top_ref st0) key vs var_mode has_changed_old
              preexisting_entry_exportv, [["VARIABLE", "SET", key]])
      else
        match preexisting with
        | some ref =>
          let vm := if var_mode &&& (ENV_EXPORT ||| ENV_UNEXPORT) = 0
                    then (if preexisting_entry_exportv then ENV_EXPORT else 0)
                    else var_mode
          (0, commit_set st0 ref key vs vm has_changed_old
                preexisting_entry_exportv, [["VARIABLE", "SET", key]])
        | none =>
          let b1 := if ¬st0.proc_had_barrier
                    then env_universal_barrier { st0 with proc_had_barrier := true }
                    else (st0, [])
          if (uvar_get b1.1.uvars key).isSome then
            let exportv :=
              if var_mode &&& ENV_EXPORT ≠ 0 then true
              else if var_mode &&& ENV_UNEXPORT ≠ 0 then false
              else uvar_get_export b1.1.uvars key
            let st2 := { b1.1 with uvars := uvar_set b1.1.uvars key vs exportv }
            let b2 := env_universal_barrier st2
            (0, b2.1, b1.2 ++ b2.2)
          else
            (0, commit_set b1.1 (default_target_ref b1.1.locals) key vs var_mode
                  has_changed_old preexisting_entry_exportv,
             b1.2 ++ [["VARIABLE", "SET", key]])

/-! ### env_stack_t::get -/

/-- One node probe of the lookup loop: an entry is returned only when its
exported-ness passes the requested filter; the ENV_NULL sentinel becomes a
missing value (the inner `none`). A filtered-out entry does not stop the
walk. -/
def node_filter_lookup (n : env_node_t) (key : String) (se su : Bool) :
    Option (Option String) :=
  match find_entry n.env key with
  | some e =>
    if (if e.exportv then se else su) then
      some (if e.val = ENV_NULL then none else some e.val)
    else none
  | none => none

/-- The unscoped walk of env_stack_t::get from the top: advance by next_scope,
jumping to the global node at a new-scope boundary and stopping there. -/
def chain_search_walk (locals : List env_node_t) (global : env_node_t)
    (key : String) (se su : Bool) : Option (Option String) :=
  match locals with
  | [] => node_filter_lookup global key se su
  | n :: rest =>
    match node_filter_lookup n key se su with
    | some r => some r
    | none =>
      if n.new_scope then node_filter_lookup global key se su
      else chain_search_walk rest global key se su

/-- The local/global search of env_stack_t::get: without an explicit scope the
full chain is walked; with one, only the starting node (top for local-inclusive
search, else global) and then possibly the global node are probed. -/
def chain_search (locals : List env_node_t) (global : env_node_t) (key : String)
    (has_scope search_local search_global se su : Bool) : Option (Option String) :=
  if ¬has_scope then chain_search_walk locals global key se su
  else if ¬search_local ∨ locals.isEmpty then node_filter_lookup global key se su
  else
    match node_filter_lookup (locals.headD default) key se su with
    | some r => some r
    | none =>
      if search_global then node_filter_lookup global key se su else none

/-- The barrier run of env_stack_t::get before consulting the universal layer:
once per command (guarded by proc_had_barrier), on the main thread. -/
def barrier_view (st : env_state_t) : env_state_t :=
  if ¬st.proc_had_barrier
  then (env_universal_barrier { st with proc_had_barrier := true }).1
  else st

/-- env_stack_t::get (src/env.cpp). Returns the value (none = missing) and the
state as changed by a universal barrier run on a universal-layer consultation.
Electric keys are computed directly, but only when global search is permitted;
main-thread evaluation is assumed (so the history value is available). -/
def env_get (ext : env_ext_t) (st : env_state_t) (key : String) (mode : Nat) :
    Option String × env_state_t :=
  let has_scope : Bool := mode &&& (ENV_LOCAL ||| ENV_GLOBAL ||| ENV_UNIVERSAL) != 0
  let search_local : Bool := !has_scope || (mode &&& ENV_LOCAL != 0)
  let search_global : Bool := !has_scope || (mode &&& ENV_GLOBAL != 0)
  let search_universal : Bool := !has_scope || (mode &&& ENV_UNIVERSAL != 0)
  let search_exported : Bool := (mode &&& ENV_EXPORT != 0) || !(mode &&& ENV_UNEXPORT != 0)
  let search_unexported : Bool := (mode &&& ENV_UNEXPORT != 0) || !(mode &&& ENV_EXPORT != 0)
  if is_electric key ∧ ¬search_global then (none, st)
  else if is_electric key ∧ key = "history" then (some ext.history_repr, st)
  else if is_electric key ∧ key = "COLUMNS" then (some (toString ext.term_width), st)
  else if is_electric key ∧ key = "LINES" then (some (toString ext.term_height), st)
  else if is_electric key ∧ key = "status" then (some (toString st.last_status), st)
  else if is_electric key ∧ key = "umask" then (some (render_umask st.umask_val), st)
  else
    match (if search_local || search_global then
             chain_search st.locals st.global key has_scope search_local
               search_global search_exported search_unexported
           else none) with
    | some r => (r, st)
    | none =>
      if ¬search_universal then (none, st)
      else
        let stB := barrier_view st
        match uvar_get stB.uvars key with
        | none => (none, stB)
        | some v =>
          if v = ENV_NULL ∨
              ¬(if uvar_get_export stB.uvars key then search_exported
                else search_unexported) then
            (none, stB)
          else (some v, stB)

/-! ### Export array (env_stack_t::update_export_array_if_necessary) -/

/-- Overwriting insertion into the collected key → value map (std::map
operator[] in get_exported). -/
def assoc_overwrite (h : List (String × String)) (key v : String) :
    List (String × String) :=
  match h with
  | [] => [(key, v)]
  | (k, v0) :: rest =>
    if k = key then (k, v) :: rest else (k, v0) :: assoc_overwrite rest key v

def assoc_find (h : List (String × String)) (key : String) : Option String :=
  match h with
  | [] => none
  | (k, v) :: rest => if k = key then some v else assoc_find rest key

/-- Non-overwriting insertion (std::map::insert for the universal merge). -/
def assoc_insert_no_overwrite (h : List (String × String)) (key v : String) :
    List (String × String) :=
  if (assoc_find h key).isSome then h else h ++ [(key, v)]

/-- The per-node step of env_stack_t::get_exported: every exported, non-null
entry overwrites the value collected from outer scopes. -/
def exported_of_node (n : env_node_t) (h : List (String × String)) :
    List (String × String) :=
  n.env.foldl
    (fun acc kv =>
      if kv.2.exportv ∧ kv.2.val ≠ ENV_NULL then assoc_overwrite acc kv.1 kv.2.val
      else acc) h

/-- env_stack_t::get_exported walking from the top: parent scopes are
collected first (jumping to the global node at a new-scope boundary), so inner
scopes shadow outer ones. -/
def get_exported_walk (locals : List env_node_t) (global : env_node_t) :
    List (String × String) :=
  match locals with
  | [] => exported_of_node global []
  | n :: rest =>
    exported_of_node n
      (if n.new_scope then exported_of_node global [] else get_exported_walk rest global)

/-- export_func (src/env.cpp): flatten to KEY=VALUE entries, replacing the
array separator with a colon for the colon-delimited whitelist. -/
def export_func (vals : List (String × String)) : List String :=
  vals.map (fun kv =>
    let vs := if variable_is_colon_delimited_array kv.1
              then kv.2.map (fun c => if c = ARRAY_SEP_CHAR then ':' else c)
              else kv.2
    kv.1 ++ "=" ++ vs)

/-- The names the universal merge enumerates: get_names(true, false). -/
def uvar_exported_names (u : List (String × String × Bool)) : List String :=
  match u with
  | [] => []
  | (k, _, e) :: rest =>
    if e then k :: uvar_exported_names rest else uvar_exported_names rest

/-- env_stack_t::update_export_array_if_necessary (src/env.cpp): optionally run
the universal barrier, and when the dirty flag is set rebuild the export array
from the visible exported variables merged (without overwriting) with the
exported universal variables, clearing the flag only after the rebuild.
Returns the state, whether a rebuild took place, and the barrier events. -/
def update_export_array_if_necessary (st : env_state_t) (recalc : Bool) :
    env_state_t × Bool × List (List String) :=
  let b := if recalc ∧ ¬st.proc_had_barrier
           then env_universal_barrier { st with proc_had_barrier := true }
           else (st, [])
  let st1 := b.1
  if st1.has_changed_exported then
    let vals0 := get_exported_walk st1.locals st1.global
    let vals := (uvar_exported_names st1.uvars).foldl
      (fun h k =>
        match uvar_get st1.uvars k with
        | some v => if v ≠ ENV_NULL then assoc_insert_no_overwrite h k v else h
        | none => h) vals0
    ({ st1 with export_array := export_func vals, has_changed_exported := false },
     true, b.2)
  else (st1, false, b.2)

theorem and_mask_union (x a b : Nat) (ha : x &&& a = 0) (hb : x &&& b = 0) :
    x &&& (a ||| b) = 0 := by
  rw [Nat.and_or_distrib_left, ha, hb]
  decide

theorem env_get_umask_eq (ext : env_ext_t) (st : env_state_t) :
    (env_get ext st "umask" 0).1 = some (render_umask st.umask_val) := rfl

/-- C3: setting `umask` with a value that wcstol parses as octal, consuming the
whole string, to a result in [0, 0o777] applies it to the process umask,
returns 0 and stores nothing (the whole variable state is untouched), so a
later get of the electric umask variable renders exactly that value; any other
value — unparsable, partially consumed, out of range, empty or absent —
returns ENV_INVALID and leaves the umask and all variable tables unchanged.
(The mode carries none of ENV_LOCAL/ENV_UNIVERSAL/ENV_EXPORT, which would be
rejected earlier as scope errors since umask is electric.) -/
theorem env_set_umask_spec (ext : env_ext_t) (st : env_state_t) (v : String)
    (mode : Nat) (hL : mode &&& ENV_LOCAL = 0) (hU : mode &&& ENV_UNIVERSAL = 0)
    (hE : mode &&& ENV_EXPORT = 0) :
    ((v ≠ "" ∧ (wcstol_oct v.data).2 = [] ∧ 0 ≤ (wcstol_oct v.data).1 ∧
        (wcstol_oct v.data).1 ≤ 511 →
      (env_set ext st "umask" (some v) mode).1 = 0 ∧
      (env_set ext st "umask" (some v) mode).2.1 =
        { st with umask_val := (wcstol_oct v.data).1.toNat } ∧
      (env_get ext (env_set ext st "umask" (some v) mode).2.1 "umask" 0).1 =
        some (render_umask (wcstol_oct v.data).1.toNat)) ∧
     (¬(v ≠ "" ∧ (wcstol_oct v.data).2 = [] ∧ 0 ≤ (wcstol_oct v.data).1 ∧
          (wcstol_oct v.data).1 ≤ 511) →
      (env_set ext st "umask" (some v) mode).1 = ENV_INVALID ∧
      (env_set ext st "umask" (some v) mode).2.1 = st)) ∧
    ((env_set ext st "umask" none mode).1 = ENV_INVALID ∧
     (env_set ext st "umask" none mode).2.1 = st) := by
  have h33 : mode &&& (ENV_LOCAL ||| ENV_UNIVERSAL) = 0 := and_mask_union _ _ _ hL hU
  have hred : ∀ w : Option String,
      env_set ext st "umask" w mode =
        (match (match w with
                | some v0 => some (if ("umask" : String) = "PWD" ∨ ("umask" : String) = "HOME"
                                   then ext.canon v0 else v0)
                | none => none) with
         | some v0 =>
           if v0 ≠ "" then
             let parsed := wcstol_oct v0.data
             if parsed.2 = [] ∧ parsed.1 ≤ 511 ∧ 0 ≤ parsed.1 then
               (0, { st with umask_val := parsed.1.toNat }, [])
             else (ENV_INVALID, st, [])
           else (ENV_INVALID, st, [])
         | none => (ENV_INVALID, st, [])) := by
    intro w
    unfold env_set
    rw [if_neg (fun hc => hc.1 h33), if_neg (fun hc => hc.1 hE),
        if_neg (fun hc => absurd hc.2 (by decide)), if_pos rfl]
  refine ⟨⟨?_, ?_⟩, ?_⟩
  · intro hok
    obtain ⟨hv, hrest, hge, hle⟩ := hok
    have hcond : (wcstol_oct v.data).2 = [] ∧ (wcstol_oct v.data).1 ≤ 511 ∧
        0 ≤ (wcstol_oct v.data).1 := ⟨hrest, hle, hge⟩
    rw [hred (some v)]
    simp only [show (("umask" : String) = "PWD" ∨ ("umask" : String) = "HOME") = False
        by simp, if_false]
    rw [if_pos hv]
    rw [if_pos hcond]
    exact ⟨rfl, rfl, env_get_umask_eq ext _⟩
  · intro hbad
    rw [hred (some v)]
    simp only [show (("umask" : String) = "PWD" ∨ ("umask" : String) = "HOME") = False
        by simp, if_false]
    by_cases hv : v = ""
    · rw [if_neg (by simp [hv])]
      exact ⟨rfl, rfl⟩
    · rw [if_pos hv]
      have hnc : ¬((wcstol_oct v.data).2 = [] ∧ (wcstol_oct v.data).1 ≤ 511 ∧
          0 ≤ (wcstol_oct v.data).1) := by
        intro hc
        exact hbad ⟨hv, hc.1, hc.2.2, hc.2.1⟩
      rw [if_neg hnc]
      exact ⟨rfl, rfl⟩
  · rw [hred none]
    exact ⟨rfl, rfl⟩

/-- Witness for C3: setting umask to "022" applies 0o022 = 18 and the electric
umask reads back "0022"; setting it to "8" is rejected. -/
theorem env_set_umask_spec_witness :
    (let ext : env_ext_t := ⟨fun s => s, "", 80, 24⟩
     let st : env_state_t :=
       { locals := [], global := { env := [], new_scope := false, exportv := false },
         uvars := [], pending := [], proc_had_barrier := false,
         has_changed_exported := false, export_array := [], umask_val := 0,
         last_status := 0 }
     (env_set ext st "umask" (some "022") 0).1 = 0 ∧
     (env_set ext st "umask" (some "022") 0).2.1 =
       { st with umask_val := (wcstol_oct "022".data).1.toNat } ∧
     (env_get ext (env_set ext st "umask" (some "022") 0).2.1 "umask" 0).1 =
       some (render_umask (wcstol_oct "022".data).1.toNat)) :=
  (env_set_umask_spec ⟨fun s => s, "", 80, 24⟩
    { locals := [], global := { env := [], new_scope := false, exportv := false },
      uvars := [], pending := [], proc_had_barrier := false,
      has_changed_exported := false, export_array := [], umask_val := 0,
      last_status := 0 }
    "022" 0 (by decide) (by decide) (by decide)).1.1 (by decide)

/-- C4 counterexample: mode ENV_GLOBAL ||| ENV_EXPORT excludes unexported
lookup (search_unexported is false), yet env_stack_t::get of the electric
"status" still returns the computed exit status instead of the missing value:
the electric branch checks only the global permission, never the export
filter. -/
theorem env_get_electric_cex :
    (env_get ⟨fun s => s, "", 80, 24⟩
      { locals := [], global := { env := [], new_scope := false, exportv := false },
        uvars := [], pending := [], proc_had_barrier := false,
        has_changed_exported := false, export_array := [], umask_val := 0,
        last_status := 7 }
      "status" (ENV_GLOBAL ||| ENV_EXPORT)).1 = some "7" := rfl

/-- The global-permission test of env_stack_t::get, as computed for its
electric branch. -/
def mode_permits_global (mode : Nat) : Bool :=
  !(mode &&& (ENV_LOCAL ||| ENV_GLOBAL ||| ENV_UNIVERSAL) != 0) ||
    (mode &&& ENV_GLOBAL != 0)

/-- The dynamically calculated value of an electric variable. -/
def electric_value (ext : env_ext_t) (st : env_state_t) (key : String) : String :=
  if key = "history" then ext.history_repr
  else if key = "COLUMNS" then toString ext.term_width
  else if key = "LINES" then toString ext.term_height
  else if key = "status" then toString st.last_status
  else render_umask st.umask_val

/-- C4 (amended): for every electric key, env_stack_t::get computes and
returns the dynamic value whenever the mode permits global lookup — regardless
of the exported/unexported filter bits — and returns the missing value for any
mode that excludes global lookup. -/
theorem env_get_electric_spec (ext : env_ext_t) (st : env_state_t) (key : String)
    (mode : Nat) (h : is_electric key = true) :
    (mode_permits_global mode = true →
       (env_get ext st key mode).1 = some (electric_value ext st key)) ∧
    (mode_permits_global mode = false →
       (env_get ext st key mode).1 = none) := by
  have hkey : key = "history" ∨ key = "status" ∨ key = "umask" ∨
      key = "COLUMNS" ∨ key = "LINES" := by
    simpa [is_electric] using h
  constructor
  · intro hperm
    have hsg : (!(mode &&& (ENV_LOCAL ||| ENV_GLOBAL ||| ENV_UNIVERSAL) != 0) ||
        (mode &&& ENV_GLOBAL != 0)) = true := by
      simpa [mode_permits_global] using hperm
    rcases hkey with rfl | rfl | rfl | rfl | rfl <;>
      simp [env_get, electric_value, hsg, is_electric]
  · intro hperm
    have hsg : (!(mode &&& (ENV_LOCAL ||| ENV_GLOBAL ||| ENV_UNIVERSAL) != 0) ||
        (mode &&& ENV_GLOBAL != 0)) = false := by
      simpa [mode_permits_global] using hperm
    rcases hkey with rfl | rfl | rfl | rfl | rfl <;>
      simp [env_get, hsg, is_electric]

/-- Witness for C4 (amended): the electric umask with the default mode. -/
theorem env_get_electric_spec_witness :
    (env_get ⟨fun s => s, "", 80, 24⟩
      { locals := [], global := { env := [], new_scope := false, exportv := false },
        uvars := [], pending := [], proc_had_barrier := false,
        has_changed_exported := false, export_array := [], umask_val := 18,
        last_status := 0 }
      "umask" 0).1 =
      some (electric_value ⟨fun s => s, "", 80, 24⟩
        { locals := [], global := { env := [], new_scope := false, exportv := false },
          uvars := [], pending := [], proc_had_barrier := false,
          has_changed_exported := false, export_array := [], umask_val := 18,
          last_status := 0 }
        "umask") :=
  (env_get_electric_spec ⟨fun s => s, "", 80, 24⟩
    { locals := [], global := { env := [], new_scope := false, exportv := false },
      uvars := [], pending := [], proc_had_barrier := false,
      has_changed_exported := false, export_array := [], umask_val := 18,
      last_status := 0 }
    "umask" 0 (by decide)).1 (by decide)

theorem env_universal_barrier_noop (st : env_state_t) (h : st.pending = []) :
    env_universal_barrier st = (st, []) := by
  obtain ⟨l, g, u, p, hb, ce, ea, um, ls⟩ := st
  simp only at h
  subst h
  simp [env_universal_barrier]

theorem update_export_array_fields (st : env_state_t) (recalc : Bool)
    (h : st.pending = []) :
    (update_export_array_if_necessary st recalc).1.has_changed_exported = false ∧
    (update_export_array_if_necessary st recalc).1.pending = [] ∧
    (update_export_array_if_necessary st recalc).2.1 = st.has_changed_exported ∧
    (st.has_changed_exported = false →
      (update_export_array_if_necessary st recalc).1.export_array = st.export_array) := by
  unfold update_export_array_if_necessary
  split
  · rw [env_universal_barrier_noop { st with proc_had_barrier := true } (by simpa using h)]
    dsimp only
    split
    · next hce => exact ⟨rfl, by simpa using h, by simpa using hce, by simp_all⟩
    · next hce =>
      have hce2 : st.has_changed_exported = false := by simpa using hce
      exact ⟨by simpa using hce2, by simpa using h, by simpa using hce2, fun _ => rfl⟩
  · dsimp only
    split
    · next hce => exact ⟨rfl, by simpa using h, by simpa using hce, by simp_all⟩
    · next hce =>
      have hce2 : st.has_changed_exported = false := by simpa using hce
      exact ⟨hce2, h, hce2.symm, fun _ => rfl⟩

/-- C6: calling update_export_array_if_necessary twice in a row with no
intervening export-relevant mutation (no pending universal change to pull)
leaves the export-array contents of the second call identical to the first,
the second call performs no rebuild (its dirty flag was left clear by the
first call), and a call rebuilds exactly when the dirty flag was set — the
flag is cleared only by a completed rebuild. -/
theorem update_export_array_idempotent (st : env_state_t) (r1 r2 : Bool)
    (h : st.pending = []) :
    ((update_export_array_if_necessary
        (update_export_array_if_necessary st r1).1 r2).1.export_array =
      (update_export_array_if_necessary st r1).1.export_array) ∧
    ((update_export_array_if_necessary
        (update_export_array_if_necessary st r1).1 r2).2.1 = false) ∧
    ((update_export_array_if_necessary st r1).2.1 = st.has_changed_exported) ∧
    ((update_export_array_if_necessary st r1).1.has_changed_exported = false) ∧
    ((update_export_array_if_necessary
        (update_export_array_if_necessary st r1).1 r2).1.has_changed_exported = false) := by
  obtain ⟨h1a, h1b, h1c, -⟩ := update_export_array_fields st r1 h
  obtain ⟨h2a, h2b, h2c, h2d⟩ :=
    update_export_array_fields (update_export_array_if_necessary st r1).1 r2 h1b
  refine ⟨h2d h1a, ?_, h1c, h1a, h2a⟩
  rw [h2c, h1a]

/-- Witness for C6: on a state with one exported global entry and a set dirty
flag, the first call rebuilds and the second does not. -/
theorem update_export_array_idempotent_witness :
    (let st : env_state_t :=
       { locals := [],
         global := { env := [("X", { val := "1", exportv := true })],
                     new_scope := false, exportv := true },
         uvars := [], pending := [], proc_had_barrier := false,
         has_changed_exported := true, export_array := [], umask_val := 0,
         last_status := 0 }
     ((update_export_array_if_necessary
         (update_export_array_if_necessary st false).1 false).1.export_array =
       (update_export_array_if_necessary st false).1.export_array) ∧
     ((update_export_array_if_necessary
         (update_export_array_if_necessary st false).1 false).2.1 = false)) :=
  ⟨(update_export_array_idempotent
      { locals := [],
        global := { env := [("X", { val := "1", exportv := true })],
                    new_scope := false, exportv := true },
        uvars := [], pending := [], proc_had_barrier := false,
        has_changed_exported := true, export_array := [], umask_val := 0,
        last_status := 0 } false false (by decide)).1,
   (update_export_array_idempotent
      { locals := [],
        global := { env := [("X", { val := "1", exportv := true })],
                    new_scope := false, exportv := true },
        uvars := [], pending := [], proc_had_barrier := false,
        has_changed_exported := true, export_array := [], umask_val := 0,
        last_status := 0 } false false (by decide)).2.1⟩

/-! ### Scope round-trip (push / set-local / pop) -/

theorem env_push_fields (st : env_state_t) (ns : Bool) :
    (env_push st ns).locals =
      { env := [], new_scope := ns, exportv := false } :: st.locals ∧
    (env_push st ns).global = st.global ∧
    (env_push st ns).uvars = st.uvars ∧
    (env_push st ns).pending = st.pending ∧
    (env_push st ns).proc_had_barrier = st.proc_had_barrier ∧
    (env_push st ns).export_array = st.export_array ∧
    (env_push st ns).umask_val = st.umask_val ∧
    (env_push st ns).last_status = st.last_status := by
  unfold env_push
  split <;> exact ⟨rfl, rfl, rfl, rfl, rfl, rfl, rfl, rfl⟩

theorem env_pop_fields (st : env_state_t) (hne : st.locals ≠ []) :
    (env_pop st).locals = st.locals.tail ∧
    (env_pop st).global = st.global ∧
    (env_pop st).uvars = st.uvars ∧
    (env_pop st).pending = st.pending ∧
    (env_pop st).proc_had_barrier = st.proc_had_barrier ∧
    (env_pop st).export_array = st.export_array ∧
    (env_pop st).umask_val = st.umask_val ∧
    (env_pop st).last_status = st.last_status := by
  obtain ⟨l, g, u, p, hb, ce, ea, um, ls⟩ := st
  cases l with
  | nil => exact absurd rfl hne
  | cons n rest =>
    unfold env_pop
    dsimp only
    split <;> split <;> exact ⟨rfl, rfl, rfl, rfl, rfl, rfl, rfl, rfl⟩

theorem commit_set_some_zero_fields (st : env_state_t) (k vs : String) (vm : Nat)
    (a b : Bool) (n : env_node_t) (rest : List env_node_t)
    (hl : st.locals = n :: rest) :
    ((commit_set st (some 0) k vs vm a b).locals ≠ [] ∧
     (commit_set st (some 0) k vs vm a b).locals.tail = rest) ∧
    (commit_set st (some 0) k vs vm a b).global = st.global ∧
    (commit_set st (some 0) k vs vm a b).uvars = st.uvars ∧
    (commit_set st (some 0) k vs vm a b).pending = st.pending ∧
    (commit_set st (some 0) k vs vm a b).proc_had_barrier = st.proc_had_barrier ∧
    (commit_set st (some 0) k vs vm a b).export_array = st.export_array ∧
    (commit_set st (some 0) k vs vm a b).umask_val = st.umask_val ∧
    (commit_set st (some 0) k vs vm a b).last_status = st.last_status := by
  obtain ⟨l, g, u, p, hb, ce, ea, um, ls⟩ := st
  simp only at hl
  subst hl
  unfold commit_set commit_node node_at with_node_at
  dsimp only
  split <;> exact ⟨⟨by simp, rfl⟩, rfl, rfl, rfl, rfl, rfl, rfl, rfl⟩

/-- A set with ENV_LOCAL touches at most the top scope node: the rest of the
chain and everything else except the export-cache dirty flag is untouched. -/
theorem env_set_local_fields (ext : env_ext_t) (st : env_state_t) (k : String)
    (v : Option String) (hne : st.locals ≠ []) :
    ((env_set ext st k v ENV_LOCAL).2.1.locals ≠ [] ∧
     (env_set ext st k v ENV_LOCAL).2.1.locals.tail = st.locals.tail) ∧
    (env_set ext st k v ENV_LOCAL).2.1.global = st.global ∧
    (env_set ext st k v ENV_LOCAL).2.1.uvars = st.uvars ∧
    (env_set ext st k v ENV_LOCAL).2.1.pending = st.pending ∧
    (env_set ext st k v ENV_LOCAL).2.1.proc_had_barrier = st.proc_had_barrier ∧
    (env_set ext st k v ENV_LOCAL).2.1.export_array = st.export_array ∧
    (env_set ext st k v ENV_LOCAL).2.1.umask_val = st.umask_val ∧
    (env_set ext st k v ENV_LOCAL).2.1.last_status = st.last_status := by
  obtain ⟨l, g, u, p, hb, ce, ea, um, ls⟩ := st
  cases l with
  | nil => exact absurd rfl hne
  | cons n rest =>
    unfold env_set
    by_cases hro : is_read_only k ∨ is_electric k
    · rw [if_pos ⟨show ENV_LOCAL &&& (ENV_LOCAL ||| ENV_UNIVERSAL) ≠ 0 by decide, hro⟩]
      exact ⟨⟨by simp, rfl⟩, rfl, rfl, rfl, rfl, rfl, rfl, rfl⟩
    · rw [if_neg (fun hc => hro hc.2),
          if_neg (fun hc => absurd hc.1 (show ¬(ENV_LOCAL &&& ENV_EXPORT ≠ 0) by decide)),
          if_neg (fun hc => absurd hc.1 (show ¬(ENV_LOCAL &&& ENV_USER ≠ 0) by decide))]
      have hkum : ¬(k = "umask") := by
        intro hk
        exact hro (Or.inr (by rw [hk]; decide))
      rw [if_neg hkum,
          if_neg (show ¬(ENV_LOCAL &&& ENV_UNIVERSAL ≠ 0) by decide),
          if_neg (show ¬(ENV_LOCAL &&& ENV_GLOBAL ≠ 0) by decide),
          if_pos (show ENV_LOCAL &&& ENV_LOCAL ≠ 0 by decide)]
      rw [show top_ref (⟨n :: rest, g, u, p, hb, ce, ea, um, ls⟩ : env_state_t) =
            some 0 from rfl]
      exact commit_set_some_zero_fields
        (⟨n :: rest, g, u, p, hb, ce, ea, um, ls⟩ : env_state_t) _ _ _ _ _ n rest rfl


theorem barrier_view_uvars_hce (st : env_state_t) (b : Bool) :
    (barrier_view { st with has_changed_exported := b }).uvars =
      (barrier_view st).uvars := by
  unfold barrier_view env_universal_barrier
  dsimp only
  split <;> rfl

theorem env_get_fst_hce (ext : env_ext_t) (k : String) (mode : Nat)
    (st : env_state_t) (b : Bool) :
    (env_get ext { st with has_changed_exported := b } k mode).1 =
      (env_get ext st k mode).1 := by
  unfold env_get
  dsimp only
  rw [barrier_view_uvars_hce]
  by_cases he : is_electric k = true
  · have hkey : k = "history" ∨ k = "status" ∨ k = "umask" ∨ k = "COLUMNS" ∨
        k = "LINES" := by simpa [is_electric] using he
    by_cases hsg : (!mode &&& (ENV_LOCAL ||| ENV_GLOBAL ||| ENV_UNIVERSAL) != 0 ||
        mode &&& ENV_GLOBAL != 0) = true
    · rcases hkey with rfl | rfl | rfl | rfl | rfl <;> simp [hsg, is_electric]
    · rcases hkey with rfl | rfl | rfl | rfl | rfl <;> simp [hsg, is_electric]
  · have he2 : is_electric k = false := by simpa using he
    simp only [he2, Bool.false_eq_true, false_and, if_false]
    repeat' (split <;> try rfl)

theorem env_state_t_eq_of_fields (x y : env_state_t)
    (h1 : x.locals = y.locals) (h2 : x.global = y.global) (h3 : x.uvars = y.uvars)
    (h4 : x.pending = y.pending) (h5 : x.proc_had_barrier = y.proc_had_barrier)
    (h6 : x.has_changed_exported = y.has_changed_exported)
    (h7 : x.export_array = y.export_array) (h8 : x.umask_val = y.umask_val)
    (h9 : x.last_status = y.last_status) : x = y := by
  obtain ⟨l1, g1, u1, p1, b1, c1, e1, m1, s1⟩ := x
  obtain ⟨l2, g2, u2, p2, b2, c2, e2, m2, s2⟩ := y
  simp only at h1 h2 h3 h4 h5 h6 h7 h8 h9
  subst h1 h2 h3 h4 h5 h6 h7 h8 h9
  rfl

/-- C2: for every key, value and reachable environment-stack state, the
sequence push(new_scope = true); set(k, v, ENV_LOCAL); pop() leaves every
subsequent get(k, mode) returning exactly what it returned before the push,
for every mode (scope isolation round-trip). -/
theorem env_scope_roundtrip (ext : env_ext_t) (st : env_state_t) (k : String)
    (v : Option String) (mode : Nat) :
    (env_get ext
        (env_pop (env_set ext (env_push st true) k v ENV_LOCAL).2.1) k mode).1 =
      (env_get ext st k mode).1 := by
  obtain ⟨hp1, hp2, hp3, hp4, hp5, hp6, hp7, hp8⟩ := env_push_fields st true
  have hne1 : (env_push st true).locals ≠ [] := by rw [hp1]; simp
  obtain ⟨⟨hs0, hs1⟩, hs2, hs3, hs4, hs5, hs6, hs7, hs8⟩ :=
    env_set_local_fields ext (env_push st true) k v hne1
  obtain ⟨ho1, ho2, ho3, ho4, ho5, ho6, ho7, ho8⟩ :=
    env_pop_fields (env_set ext (env_push st true) k v ENV_LOCAL).2.1 hs0
  have hfinal : env_pop (env_set ext (env_push st true) k v ENV_LOCAL).2.1 =
      { st with has_changed_exported :=
          (env_pop (env_set ext (env_push st true) k v ENV_LOCAL).2.1).has_changed_exported } := by
    apply env_state_t_eq_of_fields
    · rw [ho1, hs1, hp1]
      rfl
    · rw [ho2, hs2, hp2]
    · rw [ho3, hs3, hp3]
    · rw [ho4, hs4, hp4]
    · rw [ho5, hs5, hp5]
    · rfl
    · rw [ho6, hs6, hp6]
    · rw [ho7, hs7, hp7]
    · rw [ho8, hs8, hp8]
  rw [hfinal]
  exact env_get_fst_hce ext k mode st _

/-! ### Lemmas for the default-scope set -/

theorem list_getD_set_self {α : Type} (l : List α) (i : Nat) (x d : α)
    (h : i < l.length) : (l.set i x).getD i d = x := by
  induction l generalizing i with
  | nil => simp at h
  | cons b rest ih =>
    cases i with
    | zero => simp
    | succ i0 => simpa using ih i0 (by simpa using h)

theorem list_getD_set_ne {α : Type} (l : List α) (i j : Nat) (x d : α)
    (h : i ≠ j) : (l.set i x).getD j d = l.getD j d := by
  induction l generalizing i j with
  | nil => simp
  | cons b rest ih =>
    cases i with
    | zero =>
      cases j with
      | zero => exact absurd rfl h
      | succ j0 => simp
    | succ i0 =>
      cases j with
      | zero => simp
      | succ j0 => simpa using ih i0 j0 (by omega)

theorem find_entry_set_entry_self (t : List (String × var_entry_t))
    (k : String) (e : var_entry_t) : find_entry (set_entry t k e) k = some e := by
  induction t with
  | nil => simp [set_entry, find_entry]
  | cons kv rest ih =>
    by_cases hk : kv.1 = k
    · simp [set_entry, find_entry, hk]
    · simp [set_entry, find_entry, hk, ih]

theorem uvar_get_set_self (u : List (String × String × Bool)) (k v : String)
    (e : Bool) : uvar_get (uvar_set u k v e) k = some v := by
  induction u with
  | nil => simp [uvar_set, uvar_get]
  | cons kv rest ih =>
    by_cases hk : kv.1 = k
    · simp [uvar_set, uvar_get, hk]
    · simp [uvar_set, uvar_get, hk, ih]

theorem get_node_go_valid (locals : List env_node_t) (g : env_node_t)
    (key : String) (i : Nat) (h : get_node_go locals g key = some (some i)) :
    i < locals.length := by
  induction locals generalizing i with
  | nil =>
    simp only [get_node_go] at h
    split at h <;> simp at h
  | cons n rest ih =>
    simp only [get_node_go] at h
    split at h
    · simp at h
      simp only [List.length_cons]
      omega
    · split at h
      · split at h <;> simp at h
      · revert h
        cases hr : get_node_go rest g key with
        | none => intro h; simp at h
        | some r =>
          cases r with
          | none => intro h; simp at h
          | some i0 =>
            intro h
            simp at h
            have := ih i0 hr
            simp
            omega

theorem default_target_ref_valid (locals : List env_node_t) (i : Nat)
    (h : default_target_ref locals = some i) : i < locals.length := by
  induction locals generalizing i with
  | nil => simp [default_target_ref] at h
  | cons n rest ih =>
    simp only [default_target_ref] at h
    split at h
    · simp at h
      simp only [List.length_cons]
      omega
    · revert h
      cases hr : default_target_ref rest with
      | none => intro h; simp at h
      | some i0 =>
        intro h
        simp at h
        have := ih i0 hr
        simp
        omega

theorem node_at_with_node_at_self (st : env_state_t) (ref : node_ref_t)
    (n : env_node_t) (h : ∀ i, ref = some i → i < st.locals.length) :
    node_at (with_node_at st ref n) ref = n := by
  cases ref with
  | none => rfl
  | some i => exact list_getD_set_self _ _ _ _ (h i rfl)

theorem node_at_with_node_at_ne (st : env_state_t) (ref ref2 : node_ref_t)
    (n : env_node_t) (h : ref2 ≠ ref) :
    node_at (with_node_at st ref n) ref2 = node_at st ref2 := by
  cases ref with
  | none =>
    cases ref2 with
    | none => exact absurd rfl h
    | some j => rfl
  | some i =>
    cases ref2 with
    | none => rfl
    | some j =>
      have hij : i ≠ j := fun he => h (by rw [he])
      exact list_getD_set_ne _ _ _ _ _ hij

theorem node_at_hce (s : env_state_t) (r : node_ref_t) (b : Bool) :
    node_at { s with has_changed_exported := b } r = node_at s r := by
  cases r <;> rfl

theorem commit_set_node_at (st : env_state_t) (ref : node_ref_t) (k vs : String)
    (vm : Nat) (a b : Bool) (r2 : node_ref_t) :
    node_at (commit_set st ref k vs vm a b) r2 =
      node_at (with_node_at st ref (commit_node st ref k vs vm)) r2 := by
  unfold commit_set
  dsimp only
  split
  · exact node_at_hce _ _ _
  · rfl

theorem commit_set_uvars (st : env_state_t) (ref : node_ref_t) (k vs : String)
    (vm : Nat) (a b : Bool) :
    (commit_set st ref k vs vm a b).uvars = st.uvars := by
  cases ref <;> (unfold commit_set with_node_at; dsimp only; split <;> rfl)

theorem commit_set_fst_locals_len (st : env_state_t) (ref : node_ref_t)
    (k vs : String) (vm : Nat) (a b : Bool) :
    (commit_set st ref k vs vm a b).locals.length = st.locals.length := by
  cases ref <;> (unfold commit_set with_node_at; dsimp only; split <;> simp)

theorem barrier_view_locals (st : env_state_t) :
    (barrier_view st).locals = st.locals := by
  unfold barrier_view env_universal_barrier
  dsimp only
  split <;> rfl

theorem barrier_view_global (st : env_state_t) :
    (barrier_view st).global = st.global := by
  unfold barrier_view env_universal_barrier
  dsimp only
  split <;> rfl

theorem barrier_view_pending (st : env_state_t) (h : st.pending = []) :
    (barrier_view st).pending = [] := by
  unfold barrier_view env_universal_barrier
  dsimp only
  split
  · rfl
  · exact h

theorem barrier_view_uvars_nil (st : env_state_t) (h : st.pending = []) :
    (barrier_view st).uvars = st.uvars := by
  unfold barrier_view env_universal_barrier
  dsimp only
  split
  · show st.pending.foldl apply_uvar_change st.uvars = st.uvars
    rw [h]
    rfl
  · rfl

theorem b1_fst (st : env_state_t) :
    (if ¬st.proc_had_barrier
     then env_universal_barrier { st with proc_had_barrier := true }
     else (st, [])).1 = barrier_view st := by
  unfold barrier_view
  split <;> rfl

theorem node_at_eq_of_fields (x y : env_state_t) (h1 : x.locals = y.locals)
    (h2 : x.global = y.global) (r : node_ref_t) : node_at x r = node_at y r := by
  cases r with
  | none => exact h2
  | some i => simp [node_at, h1]

/-- C1: env_stack_t::set for a key with no special casing (not PWD/HOME/umask,
not read-only, not electric) and a mode with none of
ENV_GLOBAL/ENV_LOCAL/ENV_UNIVERSAL: when some node of the visible chain
(walking toward the global node, jumping there at a new-scope boundary)
already holds the key, that same node's entry is mutated in place, keeping its
previous export flag unless ENV_EXPORT or ENV_UNEXPORT is given, and every
other node and the universal layer stay untouched; otherwise, when the
universal layer holds the key after a sync barrier, the value is written
through to the universal store and no node changes; otherwise a new entry is
created at the innermost new-scope-boundary node (the global node when no
boundary exists) and nothing else moves. The call returns 0 in each case.
Remote universal deliveries during the call are excluded (pending = []). -/
theorem env_set_default_scope_spec (ext : env_ext_t) (st : env_state_t)
    (key : String) (val : Option String) (var_mode : Nat)
    (hro : is_read_only key = false) (hel : is_electric key = false)
    (hpwd : key ≠ "PWD") (hhome : key ≠ "HOME") (hum : key ≠ "umask")
    (hG : var_mode &&& ENV_GLOBAL = 0) (hL : var_mode &&& ENV_LOCAL = 0)
    (hU : var_mode &&& ENV_UNIVERSAL = 0) (hpend : st.pending = []) :
    (env_set ext st key val var_mode).1 = 0 ∧
    (match get_node st key with
     | some ref =>
       find_entry (node_at (env_set ext st key val var_mode).2.1 ref).env key =
         some { val := val.getD ENV_NULL,
                exportv :=
                  if var_mode &&& (ENV_EXPORT ||| ENV_UNEXPORT) = 0
                  then ((find_entry (node_at st ref).env key).getD default).exportv
                  else (var_mode &&& ENV_EXPORT != 0) } ∧
       (∀ ref2, ref2 ≠ ref →
          node_at (env_set ext st key val var_mode).2.1 ref2 = node_at st ref2) ∧
       (env_set ext st key val var_mode).2.1.uvars = st.uvars
     | none =>
       if (uvar_get (barrier_view st).uvars key).isSome then
         uvar_get (env_set ext st key val var_mode).2.1.uvars key =
           some (val.getD ENV_NULL) ∧
         (∀ ref2, node_at (env_set ext st key val var_mode).2.1 ref2 =
            node_at st ref2)
       else
         find_entry (node_at (env_set ext st key val var_mode).2.1
             (default_target_ref st.locals)).env key =
           some { val := val.getD ENV_NULL,
                  exportv := (var_mode &&& ENV_EXPORT != 0) } ∧
         (∀ ref2, ref2 ≠ default_target_ref st.locals →
            node_at (env_set ext st key val var_mode).2.1 ref2 = node_at st ref2) ∧
         (env_set ext st key val var_mode).2.1.uvars = (barrier_view st).uvars) := by
  have hel2 : ¬(is_electric key = true) := by simp [hel]
  have hro2 : ¬(is_read_only key = true) := by simp [hro]
  have hval : (match val with
      | some v => some (if key = "PWD" ∨ key = "HOME" then ext.canon v else v)
      | none => none) = val := by
    cases val with
    | none => rfl
    | some v => simp [hpwd, hhome]
  cases href : get_node st key with
  | some ref =>
    have hE : env_set ext st key val var_mode =
        ((0 : Int), commit_set st ref key (val.getD ENV_NULL)
              (if var_mode &&& (ENV_EXPORT ||| ENV_UNEXPORT) = 0
               then (if (match find_entry (node_at st ref).env key with
                         | some e => e.exportv
                         | none => false) = true then ENV_EXPORT else 0)
               else var_mode)
              st.has_changed_exported
              (match find_entry (node_at st ref).env key with
               | some e => e.exportv
               | none => false),
         [["VARIABLE", "SET", key]]) := by
      unfold env_set
      rw [hval,
          if_neg (fun hc => hc.1 (and_mask_union _ _ _ hL hU)),
          if_neg (fun hc => absurd hc.2 hel2),
          if_neg (fun hc => absurd hc.2 hro2),
          if_neg hum,
          if_neg (fun hc => hc hU),
          href,
          if_neg (fun hc => hc hG),
          if_neg (fun hc => hc hL)]
    have hvalid : ∀ i, ref = some i → i < st.locals.length := by
      intro i hi
      subst hi
      exact get_node_go_valid st.locals st.global key i href
    rw [hE]
    refine ⟨rfl, ?_, ?_, ?_⟩
    · rw [commit_set_node_at, node_at_with_node_at_self _ _ _ hvalid]
      unfold commit_node
      dsimp only
      rw [find_entry_set_entry_self]
      by_cases hEU : var_mode &&& (ENV_EXPORT ||| ENV_UNEXPORT) = 0
      · rw [if_pos hEU, if_pos hEU]
        cases hfe : find_entry (node_at st ref).env key with
        | none =>
          simp
          rfl
        | some e =>
          cases hex : e.exportv <;> simp [hex, ENV_EXPORT]
      · rw [if_neg hEU, if_neg hEU]
    · intro ref2 hr2
      rw [commit_set_node_at, node_at_with_node_at_ne _ _ _ _ hr2]
    · exact commit_set_uvars _ _ _ _ _ _ _
  | none =>
    have hbvpend : (barrier_view st).pending = [] := barrier_view_pending st hpend
    by_cases hin : (uvar_get (barrier_view st).uvars key).isSome = true
    · have hE2 : (env_set ext st key val var_mode).2.1 =
          { barrier_view st with
              uvars := uvar_set (barrier_view st).uvars key (val.getD ENV_NULL)
                (if var_mode &&& ENV_EXPORT ≠ 0 then true
                 else if var_mode &&& ENV_UNEXPORT ≠ 0 then false
                 else uvar_get_export (barrier_view st).uvars key) } := by
        unfold env_set
        rw [hval,
            if_neg (fun hc => hc.1 (and_mask_union _ _ _ hL hU)),
            if_neg (fun hc => absurd hc.2 hel2),
            if_neg (fun hc => absurd hc.2 hro2),
            if_neg hum,
            if_neg (fun hc => hc hU),
            href,
            if_neg (fun hc => hc hG),
            if_neg (fun hc => hc hL)]
        dsimp only
        rw [b1_fst, if_pos hin]
        rw [env_universal_barrier_noop _ (by simpa using hbvpend)]
      have hE1 : (env_set ext st key val var_mode).1 = 0 := by
        unfold env_set
        rw [hval,
            if_neg (fun hc => hc.1 (and_mask_union _ _ _ hL hU)),
            if_neg (fun hc => absurd hc.2 hel2),
            if_neg (fun hc => absurd hc.2 hro2),
            if_neg hum,
            if_neg (fun hc => hc hU),
            href,
            if_neg (fun hc => hc hG),
            if_neg (fun hc => hc hL)]
        dsimp only
        rw [b1_fst, if_pos hin]
      rw [if_pos hin]
      refine ⟨hE1, ?_, ?_⟩
      · rw [hE2]
        exact uvar_get_set_self _ _ _ _
      · intro ref2
        rw [hE2]
        exact node_at_eq_of_fields _ _ (barrier_view_locals st) (barrier_view_global st) ref2
    · have hE2 : (env_set ext st key val var_mode).2.1 =
          commit_set (barrier_view st)
            (default_target_ref (barrier_view st).locals) key (val.getD ENV_NULL)
            var_mode st.has_changed_exported false := by
        unfold env_set
        rw [hval,
            if_neg (fun hc => hc.1 (and_mask_union _ _ _ hL hU)),
            if_neg (fun hc => absurd hc.2 hel2),
            if_neg (fun hc => absurd hc.2 hro2),
            if_neg hum,
            if_neg (fun hc => hc hU),
            href,
            if_neg (fun hc => hc hG),
            if_neg (fun hc => hc hL)]
        dsimp only
        rw [b1_fst, if_neg hin]
      have hE1 : (env_set ext st key val var_mode).1 = 0 := by
        unfold env_set
        rw [hval,
            if_neg (fun hc => hc.1 (and_mask_union _ _ _ hL hU)),
            if_neg (fun hc => absurd hc.2 hel2),
            if_neg (fun hc => absurd hc.2 hro2),
            if_neg hum,
            if_neg (fun hc => hc hU),
            href,
            if_neg (fun hc => hc hG),
            if_neg (fun hc => hc hL)]
        dsimp only
        rw [b1_fst, if_neg hin]
      rw [if_neg hin]
      have hloc : (barrier_view st).locals = st.locals := barrier_view_locals st
      have hvalid : ∀ i, default_target_ref (barrier_view st).locals = some i →
          i < (barrier_view st).locals.length := by
        intro i hi
        exact default_target_ref_valid _ i hi
      refine ⟨hE1, ?_, ?_, ?_⟩
      · rw [hE2, ← hloc, commit_set_node_at, node_at_with_node_at_self _ _ _ hvalid]
        unfold commit_node
        dsimp only
        rw [find_entry_set_entry_self]
      · intro ref2 hr2
        rw [hE2, commit_set_node_at,
            node_at_with_node_at_ne _ _ _ _ (by rw [hloc]; exact hr2)]
        exact node_at_eq_of_fields _ _ hloc (barrier_view_global st) ref2
      · rw [hE2]
        exact commit_set_uvars _ _ _ _ _ _ _

theorem env_set_default_scope_spec_witness :
    is_read_only "FOO" = false ∧ is_electric "FOO" = false ∧
    "FOO" ≠ "PWD" ∧ "FOO" ≠ "HOME" ∧ "FOO" ≠ "umask" ∧
    (0 : Nat) &&& ENV_GLOBAL = 0 ∧ (0 : Nat) &&& ENV_LOCAL = 0 ∧
    (0 : Nat) &&& ENV_UNIVERSAL = 0 ∧
    (⟨[], ⟨[], false, false⟩, [], [], true, false, [], 18, 0⟩ :
      env_state_t).pending = [] ∧
    find_entry (node_at
        (env_set ⟨fun s => s, "", 80, 24⟩
          ⟨[], ⟨[], false, false⟩, [], [], true, false, [], 18, 0⟩
          "FOO" (some "bar") 0).2.1
        (default_target_ref ([] : List env_node_t))).env "FOO" =
      some { val := "bar", exportv := false } := by
  refine ⟨by decide, by decide, by decide, by decide, by decide,
    rfl, rfl, rfl, rfl, ?_⟩
  have h := env_set_default_scope_spec ⟨fun s => s, "", 80, 24⟩
    ⟨[], ⟨[], false, false⟩, [], [], true, false, [], 18, 0⟩
    "FOO" (some "bar") 0 (by decide) (by decide) (by decide) (by decide)
    (by decide) rfl rfl rfl rfl
  exact h.2.1
